import Mathlib

set_option autoImplicit false

/-!
Verification of the databeakers pipeline framework against its specification.

The development shallowly embeds the repository code:
* `src/src/beakers/recipe.py` — the `Recipe` class: graph and beaker declaration,
  seeds and the seed ledger, `reset`, `graph_data`, and the execution engine
  `run_once`.
* `src/src/databeakers/wrappers.py` — the `RateLimit` and `Retry` wrappers.

The beaker storage module (`beakers.py`: `Beaker`, `SqliteBeaker`, `TempBeaker`)
and `exceptions.py` (`SeedError`) are imported by the source but are not part of
the available sources; their operation surface is modelled from the
specification (§4.1), as noted on each definition.

Python exceptions are modelled by an explicit `Exc` value carrying the kind of
the exception (a numeric code standing for the exception class), the textual
message, and the textual rendering of the class used for `str(type(e))`.
The `isinstance` relation on exception classes, including subclass matching, is
an explicit boolean parameter `isInst` of every function that matches errors.
-/

namespace Databeakers

/-- Identifier of an item stored in a beaker (Python ids are opaque keys). -/
abbrev ItemId := Nat

/-- A Python exception value: the numeric code of its class, its textual
message, and the textual rendering of its class as produced by str(type(e)). -/
structure Exc where
  kind : Nat
  msg : String
  type_str : String
deriving DecidableEq, Repr

/-- The TypeError raised by the runtime when awaiting a non-awaitable value. -/
def typeError : Exc :=
  { kind := 0, msg := "object can not be used in await expression", type_str := "<class 'TypeError'>" }

/-- Result of calling a Python function that may return a plain value or an
awaitable (coroutine) wrapping a value. -/
inductive PyVal (β : Type) where
  | plain : β → PyVal β
  | awaitable : β → PyVal β
deriving DecidableEq, Repr

/-- Semantics of the await operator: awaiting an awaitable yields its value,
awaiting a plain (non-awaitable) value raises TypeError. -/
def pyAwait {β : Type} : PyVal β → Except Exc β
  | .awaitable v => .ok v
  | .plain _ => .error typeError

/-- One attempt of the function wrapped by `Retry`: the call of `edge_func`
followed by the unconditional await, as in `await edge_func(item)`
(src/src/databeakers/wrappers.py line 113). The wrapped function is modelled as
a function of the attempt index so that attempts may differ (the wrapped
callable may be stateful across calls). -/
def retryAttempt {β : Type} (f : Nat → Except Exc (PyVal β)) (n : Nat) : Except Exc β :=
  match f n with
  | .error e => .error e
  | .ok v => pyAwait v

/-- The retry loop of `Retry.new_func` (wrappers.py lines 109-120): `remaining`
counts the attempts still allowed after the current one; the loop returns the
first successful await, and after the last attempt re-raises the exception of
that final attempt. Also returns the number of attempts made. -/
def retryGo {β : Type} (f : Nat → Except Exc (PyVal β)) (n : Nat) :
    Nat → Except Exc β × Nat
  | 0 => (retryAttempt f n, 1)
  | remaining + 1 =>
    match retryAttempt f n with
    | .ok v => (.ok v, 1)
    | .error _ =>
      let rest := retryGo f (n + 1) remaining
      (rest.1, rest.2 + 1)

/-- `Retry(edge_func, retries)`: `range(retries + 1)` total attempts
(wrappers.py lines 103-123). -/
def retryRun {β : Type} (f : Nat → Except Exc (PyVal β)) (retries : Nat) :
    Except Exc β × Nat :=
  retryGo f 0 retries

/-- The result handling of `RateLimit.new_func` (wrappers.py lines 24-27):
`result = edge_func(item)`, awaited only when `inspect.isawaitable(result)`,
otherwise returned unchanged. The timing delay does not affect the returned
value and is not modelled. -/
def rateLimitCall {β : Type} (res : Except Exc (PyVal β)) : Except Exc β :=
  match res with
  | .error e => .error e
  | .ok (.plain v) => .ok v
  | .ok (.awaitable v) => pyAwait (.awaitable v)

theorem retryGo_count_le {β : Type} (f : Nat → Except Exc (PyVal β)) :
    ∀ (remaining n : Nat), (retryGo f n remaining).2 ≤ remaining + 1 := by
  intro remaining
  induction remaining with
  | zero => intro n; simp [retryGo]
  | succ r ih =>
    intro n
    simp only [retryGo]
    cases retryAttempt f n with
    | ok v => simp
    | error e => simpa using Nat.succ_le_succ (ih (n + 1))

theorem retryGo_first_success {β : Type} (f : Nat → Except Exc (PyVal β)) :
    ∀ (remaining n k : Nat) (v : β), k ≤ remaining →
      (∀ j, j < k → ∃ e, retryAttempt f (n + j) = .error e) →
      retryAttempt f (n + k) = .ok v →
      retryGo f n remaining = (.ok v, k + 1) := by
  intro remaining
  induction remaining with
  | zero =>
    intro n k v hk _ hok
    interval_cases k
    simp only [retryGo]
    simpa using hok
  | succ r ih =>
    intro n k v hk hfail hok
    cases k with
    | zero =>
      simp only [retryGo]
      rw [show n + 0 = n from rfl] at hok
      rw [hok]
    | succ k =>
      obtain ⟨e0, he0⟩ := hfail 0 (Nat.succ_pos k)
      simp only [retryGo]
      rw [show n + 0 = n from rfl] at he0
      rw [he0]
      have hrec : retryGo f (n + 1) r = (.ok v, k + 1) := by
        apply ih (n + 1) k v (Nat.le_of_succ_le_succ hk)
        · intro j hj
          obtain ⟨e, he⟩ := hfail (j + 1) (Nat.succ_lt_succ hj)
          exact ⟨e, by rw [show n + 1 + j = n + (j + 1) by omega]; exact he⟩
        · rw [show n + 1 + k = n + (k + 1) by omega]; exact hok
      simp [hrec]

theorem retryGo_all_fail {β : Type} (f : Nat → Except Exc (PyVal β)) :
    ∀ (remaining n : Nat),
      (∀ j, j ≤ remaining → ∃ e, retryAttempt f (n + j) = .error e) →
      ∃ e, retryAttempt f (n + remaining) = .error e ∧
        retryGo f n remaining = (.error e, remaining + 1) := by
  intro remaining
  induction remaining with
  | zero =>
    intro n hfail
    obtain ⟨e, he⟩ := hfail 0 (Nat.le_refl 0)
    rw [show n + 0 = n from rfl] at he
    exact ⟨e, by rw [show n + 0 = n from rfl]; exact he, by simp [retryGo, he]⟩
  | succ r ih =>
    intro n hfail
    obtain ⟨e0, he0⟩ := hfail 0 (Nat.zero_le _)
    rw [show n + 0 = n from rfl] at he0
    obtain ⟨e, he, hgo⟩ := ih (n + 1) (fun j hj => by
      obtain ⟨e, hh⟩ := hfail (j + 1) (Nat.succ_le_succ hj)
      exact ⟨e, by rw [show n + 1 + j = n + (j + 1) by omega]; exact hh⟩)
    refine ⟨e, ?_, ?_⟩
    · rw [show n + (r + 1) = n + 1 + r by omega]; exact he
    · simp [retryGo, he0, hgo]

/-- C9: a `Retry` wrapper configured with a retry budget r makes at most r + 1
attempts; if some attempt succeeds its result is returned immediately without
raising, with a first success at attempt k (zero-based) returned after exactly
k + 1 attempts; if all r + 1 attempts fail the wrapper re-raises exactly the
final attempt exception, so the caller observes exactly one exception per
logical call. -/
theorem retry_semantics {β : Type} (f : Nat → Except Exc (PyVal β)) (r : Nat) :
    (retryRun f r).2 ≤ r + 1
    ∧ (∀ k v, k ≤ r → (∀ j, j < k → ∃ e, retryAttempt f j = .error e) →
        retryAttempt f k = .ok v → retryRun f r = (.ok v, k + 1))
    ∧ ((∀ j, j ≤ r → ∃ e, retryAttempt f j = .error e) →
        ∃ e, retryAttempt f r = .error e ∧ retryRun f r = (.error e, r + 1)) := by
  refine ⟨retryGo_count_le f r 0, ?_, ?_⟩
  · intro k v hk hfail hok
    exact retryGo_first_success f r 0 k v hk
      (fun j hj => by simpa using hfail j hj) (by simpa using hok)
  · intro hfail
    obtain ⟨e, he, hgo⟩ := retryGo_all_fail f r 0 (fun j hj => by simpa using hfail j hj)
    exact ⟨e, by simpa using he, hgo⟩

/-- Example wrapped function for the retry witness: fails on the first two
attempts, succeeds (returning an awaitable) on the third. -/
def retryExF : Nat → Except Exc (PyVal Nat) := fun n =>
  if n < 2 then .error { kind := 1, msg := "boom", type_str := "<class 'ValueError'>" }
  else .ok (.awaitable 42)

/-- Example wrapped function that fails on every attempt. -/
def retryExAllFail : Nat → Except Exc (PyVal Nat) := fun _ =>
  .error { kind := 1, msg := "boom", type_str := "<class 'ValueError'>" }

theorem retry_semantics_witness :
    retryRun retryExF 2 = (.ok 42, 3)
    ∧ ∃ e, retryAttempt retryExAllFail 2 = .error e
        ∧ retryRun retryExAllFail 2 = (.error e, 3) := by
  constructor
  · exact (retry_semantics retryExF 2).2.1 2 42 (by decide)
      (by intro j hj
          interval_cases j <;>
            exact ⟨{ kind := 1, msg := "boom", type_str := "<class 'ValueError'>" }, rfl⟩)
      rfl
  · exact (retry_semantics retryExAllFail 2).2.2
      (by intro j hj
          exact ⟨{ kind := 1, msg := "boom", type_str := "<class 'ValueError'>" }, rfl⟩)

/-- C10: `Retry` awaits the call result unconditionally, so a wrapped function
that is synchronous (returns a plain, non-awaitable value on every attempt)
fails every attempt with TypeError and the wrapped call raises after exhausting
all attempts instead of ever returning the function result; `RateLimit`, by
contrast, checks whether the result is awaitable and returns plain results of
synchronous functions unchanged. -/
theorem retry_rejects_sync_functions {β : Type} :
    (∀ (f : Nat → Except Exc (PyVal β)) (r : Nat),
      (∀ n, ∃ v, f n = .ok (.plain v)) →
      retryRun f r = (.error typeError, r + 1))
    ∧ (∀ v : β, rateLimitCall (.ok (.plain v)) = .ok v) := by
  constructor
  · intro f r hsync
    have hfail : ∀ j, j ≤ r → ∃ e, retryAttempt f j = .error e := by
      intro j _
      obtain ⟨v, hv⟩ := hsync j
      exact ⟨typeError, by simp [retryAttempt, hv, pyAwait]⟩
    obtain ⟨e, he, hgo⟩ := retryGo_all_fail f r 0 (fun j hj => by simpa using hfail j hj)
    obtain ⟨v, hv⟩ := hsync r
    have : e = typeError := by
      rw [show (0 : Nat) + r = r from by omega] at he
      rw [retryAttempt, hv] at he
      simpa [pyAwait] using he.symm
    rw [← this]
    exact hgo
  · intro v
    rfl

/-- Example synchronous wrapped function (always returns a plain value). -/
def retryExSync : Nat → Except Exc (PyVal Nat) := fun _ => .ok (.plain 5)

theorem retry_rejects_sync_functions_witness :
    retryRun retryExSync 1 = (.error typeError, 2)
    ∧ rateLimitCall (.ok (.plain (5 : Nat))) = .ok 5 :=
  ⟨(retry_rejects_sync_functions (β := Nat)).1 retryExSync 1 (fun _ => ⟨5, rfl⟩),
   (retry_rejects_sync_functions (β := Nat)).2 5⟩

/-! ## Data model: values, beakers, transforms, recipe state -/

/-- A value flowing through the pipeline, over a base record type α:
either a plain record, an ErrorType record (recipe.py lines 39-42: the original
item, the exception message, and the str(type(e)) rendering), or the
(record, bool) pair produced by the conditional transform of `add_conditional`
(recipe.py line 128). -/
inductive BVal (α : Type) where
  | base : α → BVal α
  | errorWrap : BVal α → String → String → BVal α
  | condPair : BVal α → Bool → BVal α
deriving DecidableEq, Repr

/-- Result of invoking a transform function on one item: a truthy record, a
falsy result (the item is dropped), or a raised exception. -/
abbrev TRes (α : Type) := Except Exc (Option (BVal α))

/-- The edge payload `Transform` (recipe.py lines 17-22): display name, the
transform function, and the declaration-ordered error map from tuples of
exception classes (numeric codes) to destination beaker names. The function is
the already sync-bridged callable: `run_once` converts a coroutine function to
a synchronous one before the item loop (recipe.py lines 306-312). -/
structure Transform (α : Type) where
  name : String
  transform_func : BVal α → TRes α
  error_map : List (List Nat × String)

/-- Modelled from the spec: the Beaker storage abstraction (§4.1) of the
`beakers.py` module, which is not among the available sources. A beaker is a
named identity-keyed container of records: `temp` distinguishes the Temporary
variant (no record type) from the Persistent one, and `items` is the stored
(id, record) sequence in storage (insertion) order. -/
structure Beaker (α : Type) where
  temp : Bool
  items : List (ItemId × BVal α)
deriving DecidableEq, Repr

namespace Beaker

/-- Modelled from the spec (§4.1): the set of all ids currently stored. -/
def id_set {α : Type} (b : Beaker α) : List ItemId :=
  b.items.map Prod.fst

/-- Modelled from the spec (§4.1): current count of stored records. -/
def size {α : Type} (b : Beaker α) : Nat :=
  b.items.length

/-- Modelled from the spec (§4.1): insert or overwrite the record at the given
id; overwriting keeps the storage position, a new id is appended. -/
def add_item {α : Type} (b : Beaker α) (v : BVal α) (id : ItemId) : Beaker α :=
  if id ∈ b.id_set then
    { b with items := b.items.map fun p => if p.1 = id then (id, v) else p }
  else
    { b with items := b.items ++ [(id, v)] }

/-- Modelled from the spec (§4.1): an auto-generated id, fresh for the beaker
(strictly larger than every stored id). -/
def freshId {α : Type} (b : Beaker α) : ItemId :=
  b.items.foldr (fun p m => Nat.max (p.1 + 1) m) 0

/-- Modelled from the spec (§4.1): insertion with an auto-generated id. -/
def add_item_auto {α : Type} (b : Beaker α) (v : BVal α) : Beaker α :=
  b.add_item v b.freshId

end Beaker

/-- The beaker mapping of a recipe: beaker name to beaker, in insertion order
(Python dict semantics). -/
abbrev Beakers (α : Type) := List (String × Beaker α)

/-- Python dict assignment on an association list: updating an existing key
keeps its position, a new key is appended. -/
def assocSet {β : Type} (l : List (String × β)) (k : String) (v : β) :
    List (String × β) :=
  if (l.lookup k).isSome then l.map fun p => if p.1 = k then (k, v) else p
  else l ++ [(k, v)]

/-- Lookup of a beaker by name. Indexing a missing name raises KeyError in
Python; theorems that rely on a lookup carry the hypothesis that the name is
present, under which the default is never used. -/
def getBeakerD {α : Type} (bs : Beakers α) (n : String) : Beaker α :=
  (bs.lookup n).getD { temp := false, items := [] }

/-- In-place mutation of the named beaker (mutating a beaker object reached
from the dict); a missing name leaves the mapping unchanged (unreachable under
the presence hypotheses of the theorems below). -/
def updateBeaker {α : Type} (bs : Beakers α) (n : String) (f : Beaker α → Beaker α) :
    Beakers α :=
  bs.map fun p => if p.1 = n then (p.1, f p.2) else p

/-- One directed edge of the recipe graph with its transform payload. -/
structure REdge (α : Type) where
  from_b : String
  to_b : String
  transform : Transform α

/-- One persisted row of the `_seeds` ledger table (recipe.py lines 61-68):
seed name, target beaker name, number of items, import timestamp. -/
structure SeedRow where
  name : String
  beaker_name : String
  num_items : Nat
  imported_at : String
deriving DecidableEq, Repr

/-- The state of a `Recipe` (recipe.py lines 53-68): graph nodes and edges (the
networkx DiGraph, in insertion order), the beaker mapping, the seed registry
(name to target beaker and the records the zero-argument generator yields), and
the seed ledger. -/
structure RState (α : Type) where
  name : String
  nodes : List String
  edges : List (REdge α)
  beakers : Beakers α
  seeds : List (String × String × List (BVal α))
  ledger : List SeedRow

/-- `Recipe(name)`: empty graph, beakers, seeds and ledger. -/
def Recipe.init {α : Type} (name : String) : RState α :=
  { name := name, nodes := [], edges := [], beakers := [], seeds := [], ledger := [] }

/-- Modelled from the spec (§1, graph library contract): `DiGraph.add_node`
registers a node, keeping insertion order; re-adding keeps the position. -/
def addNode (ns : List String) (n : String) : List String :=
  if n ∈ ns then ns else ns ++ [n]

/-- Modelled from the spec (§1, graph library contract): `DiGraph.add_edge`
sets the edge payload for the (from, to) pair, replacing the payload of an
existing pair and appending a new pair; both endpoints are added as nodes if
absent. -/
def addEdge {α : Type} (es : List (REdge α)) (f t : String) (tr : Transform α) :
    List (REdge α) :=
  if es.any fun e => e.from_b = f ∧ e.to_b = t then
    es.map fun e => if e.from_b = f ∧ e.to_b = t then ⟨f, t, tr⟩ else e
  else es ++ [⟨f, t, tr⟩]

/-- `Recipe.add_beaker` (recipe.py lines 75-86): adds the graph node and brings
the name to a `TempBeaker` when the datatype is None, a `SqliteBeaker`
otherwise. The datatype is modelled by an optional schema name. -/
def RState.add_beaker {α : Type} (r : RState α) (name : String)
    (datatype : Option String) : RState α :=
  { r with
    nodes := addNode r.nodes name,
    beakers := assocSet r.beakers name { temp := datatype.isNone, items := [] } }

/-- `Recipe.add_transform` (recipe.py lines 88-110): default name is the
function name (`func_name` models `transform_func.__name__`), with "<lambda>"
rendered as "λ"; the edge (from, to) is added or replaced via
`DiGraph.add_edge`, which also creates missing endpoint nodes. -/
def RState.add_transform {α : Type} (r : RState α) (from_beaker to_beaker : String)
    (transform_func : BVal α → TRes α) (func_name : String)
    (name : Option String) (error_map : List (List Nat × String)) : RState α :=
  let nm := match name with
    | some n => n
    | none => if func_name = "<lambda>" then "λ" else func_name
  { r with
    nodes := addNode (addNode r.nodes from_beaker) to_beaker,
    edges := addEdge r.edges from_beaker to_beaker
      { name := nm, transform_func := transform_func, error_map := error_map } }

@[simp] theorem add_beaker_nodes {α : Type} (r : RState α) (n : String)
    (dt : Option String) : (r.add_beaker n dt).nodes = addNode r.nodes n := rfl

@[simp] theorem add_beaker_beakers {α : Type} (r : RState α) (n : String)
    (dt : Option String) :
    (r.add_beaker n dt).beakers =
      assocSet r.beakers n { temp := dt.isNone, items := [] } := rfl

@[simp] theorem add_beaker_edges {α : Type} (r : RState α) (n : String)
    (dt : Option String) : (r.add_beaker n dt).edges = r.edges := rfl

@[simp] theorem add_transform_nodes {α : Type} (r : RState α) (f t : String)
    (fn : BVal α → TRes α) (fname : String) (nm : Option String)
    (em : List (List Nat × String)) :
    (r.add_transform f t fn fname nm em).nodes =
      addNode (addNode r.nodes f) t := rfl

@[simp] theorem add_transform_beakers {α : Type} (r : RState α) (f t : String)
    (fn : BVal α → TRes α) (fname : String) (nm : Option String)
    (em : List (List Nat × String)) :
    (r.add_transform f t fn fname nm em).beakers = r.beakers := rfl

@[simp] theorem add_transform_edges_some {α : Type} (r : RState α) (f t : String)
    (fn : BVal α → TRes α) (fname nm : String) (em : List (List Nat × String)) :
    (r.add_transform f t fn fname (some nm) em).edges =
      addEdge r.edges f t { name := nm, transform_func := fn, error_map := em } :=
  rfl

@[simp] theorem add_transform_edges_none {α : Type} (r : RState α) (f t : String)
    (fn : BVal α → TRes α) (fname : String) (em : List (List Nat × String)) :
    (r.add_transform f t fn fname none em).edges =
      addEdge r.edges f t
        { name := if fname = "<lambda>" then "λ" else fname,
          transform_func := fn, error_map := em } := rfl

/-- `if_cond_true` (recipe.py lines 45-46): unwraps the (data, cond) pair,
keeping the record when the recorded boolean is true and dropping it otherwise;
subscripting a non-pair value raises TypeError. -/
def if_cond_true {α : Type} : BVal α → TRes α
  | .condPair d b => .ok (if b then some d else none)
  | _ => .error typeError

/-- `if_cond_false` (recipe.py lines 49-50): the mirror image of
`if_cond_true`. -/
def if_cond_false {α : Type} : BVal α → TRes α
  | .condPair d b => .ok (if b then none else some d)
  | _ => .error typeError

/-- `Recipe.add_conditional` (recipe.py lines 112-144): synthesizes the
intermediate Temporary Beaker (named from the predicate name, `cond_fn_name`
modelling `condition_func.__name__`), a transform pairing each record with the
predicate result, the `if_true` Temporary Beaker with its filtering transform,
and — only when `if_false` is non-empty — a filtering transform to `if_false`
(no beaker is declared for `if_false`). -/
def RState.add_conditional {α : Type} (r : RState α) (from_beaker : String)
    (condition_func : BVal α → Bool) (cond_fn_name : String)
    (if_true : String) (if_false : String) : RState α :=
  let cond_name :=
    if cond_fn_name = "<lambda>" then "cond-" ++ from_beaker
    else "cond-" ++ from_beaker ++ "-" ++ cond_fn_name
  let r1 := r.add_beaker cond_name none
  let r2 := r1.add_transform from_beaker cond_name
    (fun data => .ok (some (.condPair data (condition_func data)))) "<lambda>"
    (some cond_name) []
  let r3 := r2.add_beaker if_true none
  let r4 := r3.add_transform cond_name if_true if_cond_true "if_cond_true" none []
  if if_false ≠ "" then
    r4.add_transform cond_name if_false if_cond_false "if_cond_false" none []
  else r4

/-- `Recipe.add_seed` (recipe.py lines 148-154): registers the seed in the
in-memory registry (dict assignment). The zero-argument generator is modelled
by the finite list of records it yields. -/
def RState.add_seed {α : Type} (r : RState α) (seed_name beaker_name : String)
    (seed_items : List (BVal α)) : RState α :=
  { r with seeds := assocSet r.seeds seed_name (beaker_name, seed_items) }

/-! ## Seeds, reset -/

/-- `Recipe._db_get_seed` (recipe.py lines 165-172): the first ledger row for
the seed name, if any. -/
def dbGetSeed (ledger : List SeedRow) (seed_name : String) : Option SeedRow :=
  ledger.find? fun row => row.name = seed_name

/-- `Recipe.run_seed` (recipe.py lines 174-195): raises SeedError when the name
is unregistered; raises SeedError with the prior import timestamp when a ledger
row already exists; otherwise inserts every record the generator yields into
the target beaker with an auto-assigned id and appends one ledger row with the
item count and the insertion timestamp (`now` models the server-assigned
CURRENT_TIMESTAMP default). Errors are raised before any mutation, so an
erroring call leaves the recipe state unchanged. The SeedError message is
returned as the error value. -/
def RState.run_seed {α : Type} (r : RState α) (seed_name : String) (now : String) :
    Except String (RState α) :=
  match r.seeds.lookup seed_name with
  | none => .error ("Seed " ++ seed_name ++ " not found")
  | some (beaker_name, seed_items) =>
    match dbGetSeed r.ledger seed_name with
    | some seed => .error (seed_name ++ " already run at " ++ seed.imported_at)
    | none =>
      let beakers := seed_items.foldl
        (fun bs item => updateBeaker bs beaker_name fun b => b.add_item_auto item)
        r.beakers
      .ok { r with
            beakers := beakers,
            ledger := r.ledger ++
              [{ name := seed_name, beaker_name := beaker_name,
                 num_items := seed_items.length, imported_at := now }] }

/-- The beaker loop of `Recipe.reset` (recipe.py lines 204-209): each beaker in
mapping order is cleared, with its count echoed, when it holds data, and
reported as empty otherwise. -/
def resetGo {α : Type} (acc : Beakers α × List String) :
    List (String × Beaker α) → Beakers α × List String
  | [] => acc
  | p :: rest =>
    if p.2.size ≠ 0 then
      resetGo
        (acc.1 ++ [(p.1, ({ p.2 with items := [] } : Beaker α))],
         acc.2 ++ [p.1 ++ " reset (" ++ toString p.2.size ++ ")"])
        rest
    else
      resetGo (acc.1 ++ [p], acc.2 ++ [p.1 ++ " empty"]) rest

/-- `Recipe.reset` (recipe.py lines 199-209): deletes all ledger rows, then
walks the beaker mapping with `resetGo`. The function returns no indicator of
whether anything was cleared (the Python method returns None); the echoed lines
are returned alongside the new state. -/
def RState.reset {α : Type} (r : RState α) : RState α × List String :=
  let cleared := resetGo (([] : Beakers α), (["seeds reset"] : List String)) r.beakers
  ({ r with ledger := [], beakers := cleared.1 }, cleared.2)

/-! ## Topological order (graph library contract) -/

/-- Endpoint pairs of the edge list. -/
def edgePairs {α : Type} (es : List (REdge α)) : List (String × String) :=
  es.map fun e => (e.from_b, e.to_b)

/-- Modelled from the spec (§1, §5, graph library contract): a node is ready
when no edge reaches it from a node still remaining. -/
def pickReady (edges : List (String × String)) (remaining : List String) :
    Option String :=
  remaining.find? fun n => !(edges.any fun e => e.2 = n ∧ e.1 ∈ remaining)

/-- Modelled from the spec (§1, §5, graph library contract): Kahn-style
deterministic topological traversal, repeatedly emitting the first ready node
in insertion order. On a graph with a cycle the traversal stops early (networkx
raises instead; no claim depends on the cyclic case). -/
def topoGo (edges : List (String × String)) : Nat → List String → List String
  | 0, _ => []
  | fuel + 1, remaining =>
    match pickReady edges remaining with
    | none => []
    | some n => n :: topoGo edges fuel (remaining.erase n)

/-- Modelled from the spec: `networkx.topological_sort`. -/
def topoSort (nodes : List String) (edges : List (String × String)) : List String :=
  topoGo edges nodes.length nodes

/-! ## Execution engine: run_once -/

/-- First error-map entry whose exception-class tuple matches the raised
exception, scanning in declaration order; an entry matches when the exception
kind is an instance of some class of the tuple (recipe.py lines 322-326,
`isinstance(e, error_types)`), with `isInst` the instance-of relation on
exception classes including subclasses. -/
def errorMapMatch (isInst : Nat → Nat → Bool) :
    List (List Nat × String) → Exc → Option String
  | [], _ => none
  | (classes, dest) :: rest, e =>
    if classes.any fun c => isInst e.kind c then some dest
    else errorMapMatch isInst rest e

/-- The body of the per-item loop of `run_once` (recipe.py lines 317-339):
invoke the transform; insert a truthy result into the `to` beaker under the
source item id; drop a falsy result; on an exception, insert an ErrorType record
into the beaker of the first matching error-map entry under the same id and
continue, or re-raise when no entry matches (second component some e). -/
def handleItem {α : Type} (isInst : Nat → Nat → Bool) (bs : Beakers α)
    (to_b : String) (t : Transform α) (id : ItemId) (item : BVal α) :
    Beakers α × Option Exc :=
  match t.transform_func item with
  | .ok (some v) => (updateBeaker bs to_b fun b => b.add_item v id, none)
  | .ok none => (bs, none)
  | .error e =>
    match errorMapMatch isInst t.error_map e with
    | some dest =>
      (updateBeaker bs dest fun b => b.add_item (.errorWrap item e.msg e.type_str) id,
       none)
    | none => (bs, some e)

/-- Per-edge result: the beaker states, the ids fed through the transform, and
the unrouted exception that aborted the edge, if any. -/
structure EdgeOut (α : Type) where
  beakers : Beakers α
  processed : List ItemId
  error : Option Exc

/-- The item loop of `run_once` (recipe.py lines 314-339): iterate the source
items in storage order, skipping ids in `already` (computed once per edge);
an unrouted exception aborts the loop, leaving prior insertions in place. -/
def processItems {α : Type} (isInst : Nat → Nat → Bool) (to_b : String)
    (t : Transform α) (already : List ItemId) :
    List (ItemId × BVal α) → Beakers α → List ItemId → EdgeOut α
  | [], bs, acc => { beakers := bs, processed := acc, error := none }
  | (id, item) :: rest, bs, acc =>
    if id ∈ already then processItems isInst to_b t already rest bs acc
    else
      match handleItem isInst bs to_b t id item with
      | (bs2, none) => processItems isInst to_b t already rest bs2 (acc ++ [id])
      | (bs2, some e) => { beakers := bs2, processed := acc ++ [id], error := some e }

/-- Per-edge processing of `run_once` (recipe.py lines 289-339):
`already_processed` is the intersection of the source and destination id sets;
only the remaining source items are fed through the transform. -/
def processEdge {α : Type} (isInst : Nat → Nat → Bool) (bs : Beakers α)
    (from_b to_b : String) (t : Transform α) : EdgeOut α :=
  let fromB := getBeakerD bs from_b
  let toB := getBeakerD bs to_b
  let already := fromB.id_set.filter fun i => i ∈ toB.id_set
  processItems isInst to_b t already fromB.items bs []

/-- A run log: one entry per executed edge, with the ids fed through its
transform. -/
abbrev RunLog := List (String × String × List ItemId)

/-- The outbound edges of a node, in edge insertion order
(`graph.out_edges(node, data=True)`). -/
def outEdges {α : Type} (es : List (REdge α)) (n : String) : List (REdge α) :=
  es.filter fun e => e.from_b = n

/-- Processing of the outbound edges of one node: edges execute in order and an
unrouted exception aborts immediately. -/
def processEdges {α : Type} (isInst : Nat → Nat → Bool) :
    List (REdge α) → Beakers α → Beakers α × RunLog × Option Exc
  | [], bs => (bs, [], none)
  | e :: rest, bs =>
    let out := processEdge isInst bs e.from_b e.to_b e.transform
    match out.error with
    | none =>
      let next := processEdges isInst rest out.beakers
      (next.1, (e.from_b, e.to_b, out.processed) :: next.2.1, next.2.2)
    | some exc => (out.beakers, [(e.from_b, e.to_b, out.processed)], some exc)

/-- Result of `run_once`: final beaker states, run log, the node whose edge
aborted the run (if any), and the propagated unrouted exception (if any). -/
structure RunOut (α : Type) where
  beakers : Beakers α
  log : RunLog
  abortedAt : Option String
  error : Option Exc

/-- The node loop of `run_once` (recipe.py lines 270-339): nodes are visited in
topological order; until the start beaker is seen nodes are skipped; the end
beaker stops the run before its own edges execute; an unrouted exception
propagates, ending the run at the raising node. -/
def runNodes {α : Type} (isInst : Nat → Nat → Bool) (es : List (REdge α))
    (start_b end_b : Option String) :
    List String → Bool → Beakers α → RunLog → RunOut α
  | [], _, bs, lg => { beakers := bs, log := lg, abortedAt := none, error := none }
  | n :: rest, started, bs, lg =>
    if started || start_b = some n then
      if end_b = some n then
        { beakers := bs, log := lg, abortedAt := none, error := none }
      else
        match processEdges isInst (outEdges es n) bs with
        | (bs2, elog, none) => runNodes isInst es start_b end_b rest true bs2 (lg ++ elog)
        | (bs2, elog, some e) =>
          { beakers := bs2, log := lg ++ elog, abortedAt := some n, error := some e }
    else runNodes isInst es start_b end_b rest started bs lg

/-- `Recipe.run_once(start_beaker, end_beaker)` (recipe.py lines 264-339). -/
def RState.run_once {α : Type} (r : RState α) (isInst : Nat → Nat → Bool)
    (start_b end_b : Option String) : RunOut α :=
  runNodes isInst r.edges start_b end_b (topoSort r.nodes (edgePairs r.edges))
    start_b.isNone r.beakers []

/-! ## Introspection: graph_data -/

/-- The inbound edges of a node (`graph.in_edges(node, data=True)`). -/
def inEdges {α : Type} (es : List (REdge α)) (n : String) : List (REdge α) :=
  es.filter fun e => e.to_b = n

/-- One node descriptor of `graph_data` (recipe.py lines 242-257): name,
whether the beaker is temporary, its stored count (`len`), the computed rank,
and the outbound edges as (destination, transform) pairs. -/
structure NodeDesc (α : Type) where
  name : String
  temp : Bool
  size : Nat
  rank : Nat
  edges : List (String × Transform α)

/-- Rank of an already-visited node (`nodes[from_b]["rank"]`); visiting order
guarantees presence, the default is never read on an acyclic graph. -/
def lookupRank (ranks : List (String × Nat)) (n : String) : Nat :=
  (ranks.lookup n).getD 0

/-- The rank loop body of `graph_data` (recipe.py lines 249-253): the maximum
predecessor rank (0 with no predecessors), plus one. -/
def nodeRank {α : Type} (es : List (REdge α)) (ranks : List (String × Nat))
    (n : String) : Nat :=
  ((inEdges es n).foldl (fun m e => Nat.max m (lookupRank ranks e.from_b)) 0) + 1

/-- The node loop of `graph_data` (recipe.py lines 239-257): visit nodes in
topological order, computing each descriptor and recording its rank for the
successors. -/
def gdGo {α : Type} (r : RState α) :
    List String → List (String × Nat) → List (NodeDesc α) →
    List (NodeDesc α) × List (String × Nat)
  | [], ranks, acc => (acc, ranks)
  | n :: rest, ranks, acc =>
    let b := getBeakerD r.beakers n
    let rk := nodeRank r.edges ranks n
    gdGo r rest (ranks ++ [(n, rk)])
      (acc ++ [{ name := n, temp := b.temp, size := b.size, rank := rk,
                 edges := (outEdges r.edges n).map fun e => (e.to_b, e.transform) }])

/-- Python string comparison (lexicographic by code point), modelled on the
character list of the string. -/
def pyStrLe (a b : String) : Bool :=
  a.data ≤ b.data

/-- The (rank ascending, name ascending) display order of `graph_data`
(recipe.py line 260): the Python tuple comparison on (rank, name). -/
def nodeLe {α : Type} (a b : NodeDesc α) : Bool :=
  a.rank < b.rank || (a.rank = b.rank && pyStrLe a.name b.name)

/-- `Recipe.graph_data` (recipe.py lines 236-260); the final `sorted` call on
the (rank, name) key is modelled with a stable structural sort (Python sorted
is stable). -/
def RState.graph_data {α : Type} (r : RState α) : List (NodeDesc α) :=
  let order := topoSort r.nodes (edgePairs r.edges)
  ((gdGo r order [] []).1).insertionSort (fun a b => nodeLe a b = true)

/-! ## Association-list and beaker lemmas -/

theorem lookup_updateBeaker_self {α : Type} (bs : Beakers α) (n : String)
    (f : Beaker α → Beaker α) :
    (updateBeaker bs n f).lookup n = (bs.lookup n).map f := by
  induction bs with
  | nil => rfl
  | cons p rest ih =>
    obtain ⟨k, b⟩ := p
    simp only [updateBeaker, List.map_cons] at ih ⊢
    by_cases h : k = n
    · subst h
      rw [if_pos rfl]
      simp [List.lookup]
    · rw [if_neg h]
      have hb : (n == k) = false := beq_false_of_ne (Ne.symm h)
      simp [List.lookup, hb, ih]

theorem lookup_updateBeaker_ne {α : Type} (bs : Beakers α) (n m : String)
    (f : Beaker α → Beaker α) (h : m ≠ n) :
    (updateBeaker bs n f).lookup m = bs.lookup m := by
  induction bs with
  | nil => rfl
  | cons p rest ih =>
    obtain ⟨k, b⟩ := p
    simp only [updateBeaker, List.map_cons] at ih ⊢
    by_cases hp : k = n
    · subst hp
      rw [if_pos rfl]
      have hb : (m == k) = false := beq_false_of_ne h
      simp [List.lookup, hb, ih]
    · rw [if_neg hp]
      cases hbm : (m == k) with
      | true => simp [List.lookup, hbm]
      | false => simp [List.lookup, hbm, ih]

theorem getBeakerD_updateBeaker_self {α : Type} (bs : Beakers α) (n : String)
    (f : Beaker α → Beaker α) (h : (bs.lookup n).isSome) :
    getBeakerD (updateBeaker bs n f) n = f (getBeakerD bs n) := by
  obtain ⟨b, hb⟩ := Option.isSome_iff_exists.mp h
  simp [getBeakerD, lookup_updateBeaker_self, hb]

theorem getBeakerD_updateBeaker_ne {α : Type} (bs : Beakers α) (n m : String)
    (f : Beaker α → Beaker α) (h : m ≠ n) :
    getBeakerD (updateBeaker bs n f) m = getBeakerD bs m := by
  simp [getBeakerD, lookup_updateBeaker_ne bs n m f h]

theorem freshId_not_mem {α : Type} (b : Beaker α) : b.freshId ∉ b.id_set := by
  have hlt : ∀ (l : List (ItemId × BVal α)) (p : ItemId × BVal α), p ∈ l →
      p.1 < l.foldr (fun q m => Nat.max (q.1 + 1) m) 0 := by
    intro l
    induction l with
    | nil => intro p hp; cases hp
    | cons q rest ih =>
      intro p hp
      rcases List.mem_cons.mp hp with hq | hrest
      · subst hq; exact Nat.lt_of_lt_of_le (Nat.lt_succ_self _) (Nat.le_max_left _ _)
      · exact Nat.lt_of_lt_of_le (ih p hrest) (Nat.le_max_right _ _)
  intro hmem
  obtain ⟨p, hp, hfst⟩ := List.mem_map.mp hmem
  have := hlt b.items p hp
  rw [hfst] at this
  exact Nat.lt_irrefl _ this

theorem add_item_fresh_append {α : Type} (b : Beaker α) (v : BVal α) (id : ItemId)
    (h : id ∉ b.id_set) :
    (b.add_item v id).items = b.items ++ [(id, v)] := by
  simp [Beaker.add_item, h]

theorem add_item_auto_append {α : Type} (b : Beaker α) (v : BVal α) :
    (b.add_item_auto v).items = b.items ++ [(b.freshId, v)] :=
  add_item_fresh_append b v b.freshId (freshId_not_mem b)

/-- The per-item insertion fold of `run_seed`. -/
def seedFold {α : Type} (beaker_name : String) (items : List (BVal α))
    (bs : Beakers α) : Beakers α :=
  items.foldl
    (fun bs item => updateBeaker bs beaker_name fun b => b.add_item_auto item)
    bs

theorem run_seed_eq_seedFold {α : Type} (r : RState α) (seed_name beaker_name : String)
    (items : List (BVal α)) (now : String)
    (hreg : r.seeds.lookup seed_name = some (beaker_name, items))
    (hnew : dbGetSeed r.ledger seed_name = none) :
    r.run_seed seed_name now =
      .ok { r with
            beakers := seedFold beaker_name items r.beakers,
            ledger := r.ledger ++
              [{ name := seed_name, beaker_name := beaker_name,
                 num_items := items.length, imported_at := now }] } := by
  simp [RState.run_seed, hreg, hnew, seedFold]

theorem seedFold_spec {α : Type} (beaker_name : String) (items : List (BVal α)) :
    ∀ (bs : Beakers α), (bs.lookup beaker_name).isSome →
      (∃ tail, (getBeakerD (seedFold beaker_name items bs) beaker_name).items =
          (getBeakerD bs beaker_name).items ++ tail ∧ tail.map Prod.snd = items)
      ∧ (∀ m, m ≠ beaker_name →
          (seedFold beaker_name items bs).lookup m = bs.lookup m)
      ∧ ((seedFold beaker_name items bs).lookup beaker_name).isSome := by
  induction items with
  | nil =>
    intro bs hs
    exact ⟨⟨[], by simp [seedFold], rfl⟩, fun m _ => rfl, hs⟩
  | cons v rest ih =>
    intro bs hs
    have hstep : seedFold beaker_name (v :: rest) bs =
        seedFold beaker_name rest
          (updateBeaker bs beaker_name fun b => b.add_item_auto v) := by
      simp [seedFold]
    have hs2 : ((updateBeaker bs beaker_name fun b => b.add_item_auto v).lookup
        beaker_name).isSome := by
      rw [lookup_updateBeaker_self]
      cases hlook : bs.lookup beaker_name with
      | none => rw [hlook] at hs; cases hs
      | some b => simp
    obtain ⟨⟨tail, htail, hsnd⟩, hothers, hsome⟩ := ih _ hs2
    have hbs2 : getBeakerD (updateBeaker bs beaker_name fun b => b.add_item_auto v)
        beaker_name = (getBeakerD bs beaker_name).add_item_auto v :=
      getBeakerD_updateBeaker_self bs beaker_name _ hs
    rw [hstep]
    refine ⟨⟨((getBeakerD bs beaker_name).freshId, v) :: tail, ?_, ?_⟩, ?_, ?_⟩
    · rw [htail, hbs2, add_item_auto_append]
      simp
    · simp [hsnd]
    · intro m hm
      rw [hothers m hm, lookup_updateBeaker_ne bs beaker_name m _ hm]
    · exact hsome

/-- C4: run_seed executes each seed at most once. A first call for a
registered seed whose generator yields N records inserts exactly those N
records into the target beaker (appending N rows, so the count grows by N) and
appends exactly one ledger row recording count N; any later call for the same
seed fails with a seed error whose message carries the prior import timestamp,
leaving state untouched (the model raises before any mutation, as the code
checks the ledger before inserting); a call with an unregistered seed name
fails with a seed-not-found error, likewise before any mutation. -/
theorem run_seed_at_most_once {α : Type} (r : RState α)
    (seed_name beaker_name : String) (items : List (BVal α)) (now now2 : String)
    (hreg : r.seeds.lookup seed_name = some (beaker_name, items))
    (hbeaker : (r.beakers.lookup beaker_name).isSome)
    (hnew : dbGetSeed r.ledger seed_name = none) :
    (∃ r2, r.run_seed seed_name now = .ok r2
      ∧ (∃ tail, (getBeakerD r2.beakers beaker_name).items =
            (getBeakerD r.beakers beaker_name).items ++ tail
          ∧ tail.map Prod.snd = items)
      ∧ (getBeakerD r2.beakers beaker_name).size =
          (getBeakerD r.beakers beaker_name).size + items.length
      ∧ (∀ m, m ≠ beaker_name → r2.beakers.lookup m = r.beakers.lookup m)
      ∧ r2.ledger = r.ledger ++
          [{ name := seed_name, beaker_name := beaker_name,
             num_items := items.length, imported_at := now }]
      ∧ r2.run_seed seed_name now2 =
          .error (seed_name ++ " already run at " ++ now))
    ∧ (∀ s, r.seeds.lookup s = none →
        r.run_seed s now = .error ("Seed " ++ s ++ " not found")) := by
  obtain ⟨⟨tail, htail, hsnd⟩, hothers, _⟩ := seedFold_spec beaker_name items r.beakers hbeaker
  constructor
  · refine ⟨_, run_seed_eq_seedFold r seed_name beaker_name items now hreg hnew, ?_, ?_, ?_, rfl, ?_⟩
    · exact ⟨tail, htail, hsnd⟩
    · have hlen : tail.length = items.length := by
        rw [← hsnd, List.length_map]
      simp [Beaker.size, htail, hlen]
    · exact hothers
    · have hfound : dbGetSeed
          (r.ledger ++ [{ name := seed_name, beaker_name := beaker_name,
                          num_items := items.length, imported_at := now }])
          seed_name =
          some { name := seed_name, beaker_name := beaker_name,
                 num_items := items.length, imported_at := now } := by
        rw [dbGetSeed, List.find?_append]
        rw [dbGetSeed] at hnew
        rw [hnew, Option.none_or, List.find?_cons]
        simp
      simp [RState.run_seed, hreg, hfound]
  · intro s hs
    simp [RState.run_seed, hs]

/-- The concrete recipe of the seed witness: one persistent beaker and one
registered seed yielding three records. -/
def seedWitnessR : RState String :=
  ((Recipe.init "seed-demo").add_beaker "word" (some "Word")).add_seed
    "abc" "word" [.base "apple", .base "banana", .base "cherry"]

theorem run_seed_at_most_once_witness :
    (∃ r2, seedWitnessR.run_seed "abc" "2023-01-01" = .ok r2
      ∧ (∃ tail, (getBeakerD r2.beakers "word").items =
            (getBeakerD seedWitnessR.beakers "word").items ++ tail
          ∧ tail.map Prod.snd = [.base "apple", .base "banana", .base "cherry"])
      ∧ (getBeakerD r2.beakers "word").size =
          (getBeakerD seedWitnessR.beakers "word").size + 3
      ∧ (∀ m, m ≠ "word" → r2.beakers.lookup m = seedWitnessR.beakers.lookup m)
      ∧ r2.ledger = seedWitnessR.ledger ++
          [{ name := "abc", beaker_name := "word", num_items := 3,
             imported_at := "2023-01-01" }]
      ∧ r2.run_seed "abc" "2024-06-06" = .error "abc already run at 2023-01-01")
    ∧ (∀ s, seedWitnessR.seeds.lookup s = none →
        seedWitnessR.run_seed s "2023-01-01" =
          .error ("Seed " ++ s ++ " not found")) :=
  run_seed_at_most_once seedWitnessR "abc" "word"
    [.base "apple", .base "banana", .base "cherry"] "2023-01-01" "2024-06-06"
    (by decide) (by decide) (by decide)

/-! ## reset -/

/-- The effect of `reset` on one beaker entry: cleared when it holds data,
untouched otherwise. -/
def resetClear {α : Type} (p : String × Beaker α) : String × Beaker α :=
  if p.2.size ≠ 0 then (p.1, { p.2 with items := [] }) else p

/-- The line `reset` echoes for one beaker entry. -/
def resetLine {α : Type} (p : String × Beaker α) : String :=
  if p.2.size ≠ 0 then p.1 ++ " reset (" ++ toString p.2.size ++ ")"
  else p.1 ++ " empty"

theorem reset_fold_spec {α : Type} (l : List (String × Beaker α)) :
    ∀ (acc1 : Beakers α) (acc2 : List String),
      resetGo (acc1, acc2) l =
        (acc1 ++ l.map resetClear, acc2 ++ l.map resetLine) := by
  induction l with
  | nil => intro acc1 acc2; simp [resetGo]
  | cons p rest ih =>
    intro acc1 acc2
    by_cases h : p.2.size ≠ 0
    · simp only [resetGo, if_pos h]
      rw [ih]
      simp [resetClear, resetLine, h]
    · simp only [resetGo, if_neg h]
      rw [ih]
      simp [resetClear, resetLine, h]

theorem reset_spec {α : Type} (r : RState α) :
    (r.reset).1.ledger = []
    ∧ (r.reset).1.beakers = r.beakers.map resetClear
    ∧ (r.reset).2 = "seeds reset" :: r.beakers.map resetLine := by
  have h := reset_fold_spec r.beakers ([] : Beakers α) ["seeds reset"]
  refine ⟨rfl, ?_, ?_⟩ <;> simp [RState.reset, h]

/-- A recipe with a single empty beaker: the failing input for the reset
signalling claim. -/
def resetDemoEmpty : RState String :=
  (Recipe.init "reset-demo").add_beaker "word" (some "Word")

/-- The seeded recipe (three records in "word", one ledger row). -/
def resetDemoFull : RState String :=
  match seedWitnessR.run_seed "abc" "2023-01-01" with
  | .ok r => r
  | .error _ => seedWitnessR

/-- C8 (code divergence evidence): `reset` does delete all ledger rows, clear
every beaker holding data and report per-beaker cleared counts and empties —
but it returns no indication of whether anything was cleared: on a recipe where
nothing is there to reset it produces the same shape of result, with output
"seeds reset" then "word empty" and the unchanged beaker mapping (the
repository CLI tests expect the distinct message "Nothing to reset!" and exit
code 1 in that case, and "Reset 1 seeds" wording otherwise, so the code
contradicts its own tests). -/
theorem reset_returns_no_signal :
    ((resetDemoEmpty.reset).2 = ["seeds reset", "word empty"]
      ∧ (resetDemoEmpty.reset).1.beakers = resetDemoEmpty.beakers
      ∧ (resetDemoEmpty.reset).1.ledger = [])
    ∧ ((resetDemoFull.reset).2 = ["seeds reset", "word reset (3)"]
      ∧ (getBeakerD (resetDemoFull.reset).1.beakers "word").items = []
      ∧ resetDemoFull.ledger ≠ [] ∧ (resetDemoFull.reset).1.ledger = []) := by
  refine ⟨⟨?_, ?_, rfl⟩, ⟨?_, ?_, ?_, rfl⟩⟩ <;> decide

/-! ## Declaration lemmas: addNode, assocSet, addEdge -/

theorem mem_addNode_self (ns : List String) (n : String) : n ∈ addNode ns n := by
  by_cases h : n ∈ ns <;> simp [addNode, h]

theorem mem_addNode_of_mem (ns : List String) (n m : String) (h : m ∈ ns) :
    m ∈ addNode ns n := by
  by_cases hn : n ∈ ns <;> simp [addNode, hn, h]

theorem addNode_of_mem (ns : List String) (n : String) (h : n ∈ ns) :
    addNode ns n = ns := by
  simp [addNode, h]

theorem toFinset_addNode (ns : List String) (n : String) :
    (addNode ns n).toFinset = insert n ns.toFinset := by
  by_cases h : n ∈ ns
  · rw [addNode_of_mem ns n h]
    exact (Finset.insert_eq_self.mpr (List.mem_toFinset.mpr h)).symm
  · simp only [addNode, if_neg h, List.toFinset_append]
    rw [Finset.union_comm]
    simp [Finset.insert_eq]

theorem mem_keys_of_lookup_isSome {β : Type} (l : List (String × β)) (k : String)
    (h : (l.lookup k).isSome) : k ∈ l.map Prod.fst := by
  induction l with
  | nil => simp [List.lookup] at h
  | cons p rest ih =>
    obtain ⟨k1, b⟩ := p
    cases hk : (k == k1) with
    | true =>
      have : k = k1 := by simpa using hk
      simp [this]
    | false =>
      rw [List.lookup_cons, hk] at h
      simpa using Or.inr (ih h)

theorem assocSet_keys_toFinset {β : Type} (l : List (String × β)) (k : String) (v : β) :
    ((assocSet l k v).map Prod.fst).toFinset = insert k (l.map Prod.fst).toFinset := by
  by_cases h : (l.lookup k).isSome
  · have hkeys : (assocSet l k v).map Prod.fst = l.map Prod.fst := by
      simp only [assocSet, if_pos h, List.map_map]
      apply List.map_congr_left
      intro p _
      by_cases hp1 : p.1 = k
      · simp [Function.comp, hp1]
      · simp [Function.comp, if_neg hp1]
    rw [hkeys]
    exact (Finset.insert_eq_self.mpr
      (List.mem_toFinset.mpr (mem_keys_of_lookup_isSome l k h))).symm
  · simp only [assocSet, if_neg h, List.map_append, List.toFinset_append]
    rw [Finset.union_comm]
    simp [Finset.insert_eq]

theorem assocSet_lookup_self {β : Type} (l : List (String × β)) (k : String) (v : β) :
    (assocSet l k v).lookup k = some v := by
  by_cases h : (l.lookup k).isSome
  · simp only [assocSet, if_pos h]
    induction l with
    | nil => simp [List.lookup] at h
    | cons p rest ih =>
      obtain ⟨k1, b⟩ := p
      simp only [List.map_cons]
      by_cases hk : k1 = k
      · rw [if_pos hk]
        simp [List.lookup]
      · rw [if_neg hk]
        have hbk : (k == k1) = false := beq_false_of_ne (fun hh => hk hh.symm)
        rw [List.lookup_cons, hbk]
        rw [List.lookup_cons, hbk] at h
        exact ih h
  · simp only [assocSet, if_neg h]
    have hnone : l.lookup k = none := Option.not_isSome_iff_eq_none.mp h
    rw [List.lookup_append, hnone, Option.none_or]
    simp [List.lookup]

theorem lookup_mapSet_ne {β : Type} (l : List (String × β)) (k m : String) (v : β)
    (h : m ≠ k) :
    (l.map fun p => if p.1 = k then (k, v) else p).lookup m = l.lookup m := by
  induction l with
  | nil => rfl
  | cons p rest ih =>
    obtain ⟨k1, b⟩ := p
    simp only [List.map_cons]
    by_cases hk : k1 = k
    · subst hk
      have hbk : (m == k1) = false := beq_false_of_ne h
      rw [if_pos rfl, List.lookup_cons, List.lookup_cons, hbk]
      exact ih
    · rw [if_neg hk, List.lookup_cons, List.lookup_cons]
      cases hbm : (m == k1) with
      | true => rfl
      | false => exact ih

theorem assocSet_lookup_ne {β : Type} (l : List (String × β)) (k m : String) (v : β)
    (h : m ≠ k) : (assocSet l k v).lookup m = l.lookup m := by
  by_cases hs : (l.lookup k).isSome
  · simp only [assocSet, if_pos hs]
    exact lookup_mapSet_ne l k m v h
  · simp only [assocSet, if_neg hs]
    rw [List.lookup_append]
    have hm : List.lookup m [(k, v)] = none := by
      have hbk : (m == k) = false := beq_false_of_ne h
      simp [List.lookup, hbk]
    rw [hm]
    cases l.lookup m <;> rfl

theorem addEdge_mem_self {α : Type} (es : List (REdge α)) (f t : String)
    (tr : Transform α) : (⟨f, t, tr⟩ : REdge α) ∈ addEdge es f t tr := by
  by_cases h : es.any fun e => e.from_b = f ∧ e.to_b = t
  · simp only [addEdge, if_pos h]
    obtain ⟨e, he, hpair⟩ := List.any_eq_true.mp h
    apply List.mem_map.mpr
    refine ⟨e, he, ?_⟩
    rw [if_pos (of_decide_eq_true hpair)]
  · simp only [addEdge, if_neg h]
    exact List.mem_append_right _ (List.mem_singleton.mpr rfl)

theorem addEdge_mem_preserve {α : Type} (es : List (REdge α)) (f t : String)
    (tr : Transform α) (e : REdge α) (he : e ∈ es)
    (hne : ¬(e.from_b = f ∧ e.to_b = t)) : e ∈ addEdge es f t tr := by
  by_cases h : es.any fun e => e.from_b = f ∧ e.to_b = t
  · simp only [addEdge, if_pos h]
    apply List.mem_map.mpr
    exact ⟨e, he, by rw [if_neg hne]⟩
  · simp only [addEdge, if_neg h]
    exact List.mem_append_left _ he

/-! ## C5: graph nodes versus beaker keys -/

/-- The invariant claimed by the specification: the node set of the graph
equals the key set of the beaker mapping. -/
def nodesBeakersAligned {α : Type} (r : RState α) : Prop :=
  r.nodes.toFinset = (r.beakers.map Prod.fst).toFinset

instance {α : Type} (r : RState α) : Decidable (nodesBeakersAligned r) :=
  inferInstanceAs (Decidable (r.nodes.toFinset = (r.beakers.map Prod.fst).toFinset))

theorem aligned_add_beaker {α : Type} (r : RState α) (n : String) (dt : Option String)
    (h : nodesBeakersAligned r) : nodesBeakersAligned (r.add_beaker n dt) := by
  show (addNode r.nodes n).toFinset = _
  rw [toFinset_addNode]
  show _ = ((assocSet r.beakers n _).map Prod.fst).toFinset
  rw [assocSet_keys_toFinset, h]

theorem aligned_add_seed {α : Type} (r : RState α) (sn bn : String)
    (its : List (BVal α)) (h : nodesBeakersAligned r) :
    nodesBeakersAligned (r.add_seed sn bn its) := h

theorem aligned_add_transform {α : Type} (r : RState α) (f t : String)
    (func : BVal α → TRes α) (fn : String) (nm : Option String)
    (em : List (List Nat × String)) (h : nodesBeakersAligned r)
    (hf : f ∈ r.nodes) (ht : t ∈ r.nodes) :
    nodesBeakersAligned (r.add_transform f t func fn nm em) := by
  show (addNode (addNode r.nodes f) t).toFinset = _
  rw [addNode_of_mem _ _ hf, addNode_of_mem _ _ ht]
  exact h

theorem mem_nodes_add_beaker {α : Type} (r : RState α) (n m : String)
    (dt : Option String) (h : m ∈ r.nodes) : m ∈ (r.add_beaker n dt).nodes :=
  mem_addNode_of_mem _ _ _ h

theorem mem_nodes_add_transform {α : Type} (r : RState α) (f t m : String)
    (func : BVal α → TRes α) (fn : String) (nm : Option String)
    (em : List (List Nat × String)) (h : m ∈ r.nodes) :
    m ∈ (r.add_transform f t func fn nm em).nodes :=
  mem_addNode_of_mem _ _ _ (mem_addNode_of_mem _ _ _ h)

theorem aligned_add_conditional {α : Type} (r : RState α) (f : String)
    (cond : BVal α → Bool) (cn it if_f : String) (h : nodesBeakersAligned r)
    (hf : f ∈ r.nodes) (hcase : if_f = "" ∨ if_f ∈ r.nodes ∨ if_f = it) :
    nodesBeakersAligned (r.add_conditional f cond cn it if_f) := by
  simp only [RState.add_conditional]
  set cn2 := if cn = "<lambda>" then "cond-" ++ f else "cond-" ++ f ++ "-" ++ cn with hcn
  have h1 := aligned_add_beaker r cn2 none h
  have hf1 : f ∈ (r.add_beaker cn2 none).nodes := mem_nodes_add_beaker r cn2 f none hf
  have hc1 : cn2 ∈ (r.add_beaker cn2 none).nodes := mem_addNode_self _ _
  have h2 := aligned_add_transform _ f cn2
    (fun data => .ok (some (.condPair data (cond data)))) "<lambda>" (some cn2) []
    h1 hf1 hc1
  set r2 := (r.add_beaker cn2 none).add_transform f cn2
    (fun data => .ok (some (.condPair data (cond data)))) "<lambda>" (some cn2) []
    with hr2
  have h3 := aligned_add_beaker r2 it none h2
  have hc3 : cn2 ∈ (r2.add_beaker it none).nodes :=
    mem_nodes_add_beaker r2 it cn2 none
      (mem_nodes_add_transform _ f cn2 cn2 _ _ _ _ hc1)
  have ht3 : it ∈ (r2.add_beaker it none).nodes := mem_addNode_self _ _
  have h4 := aligned_add_transform _ cn2 it if_cond_true "if_cond_true" none []
    h3 hc3 ht3
  set r4 := (r2.add_beaker it none).add_transform cn2 it if_cond_true
    "if_cond_true" none [] with hr4
  by_cases hff : if_f ≠ ""
  · rw [if_pos hff]
    rcases hcase with hc | hc | hc
    · exact absurd hc hff
    · have : if_f ∈ r4.nodes := by
        apply mem_nodes_add_transform
        apply mem_nodes_add_beaker
        apply mem_nodes_add_transform
        exact mem_nodes_add_beaker r cn2 if_f none hc
      exact aligned_add_transform r4 cn2 if_f if_cond_false "if_cond_false" none []
        h4 (mem_nodes_add_transform _ cn2 it cn2 _ _ _ _ hc3) this
    · subst hc
      have : if_f ∈ r4.nodes := mem_nodes_add_transform _ cn2 if_f if_f _ _ _ _ ht3
      exact aligned_add_transform r4 cn2 if_f if_cond_false "if_cond_false" none []
        h4 (mem_nodes_add_transform _ cn2 if_f cn2 _ _ _ _ hc3) this
  · rw [if_neg hff]
    exact h4

/-- The recipe of the repository test `test_add_transform`: a transform is
added towards "capitalized" although no such beaker was ever declared. -/
def c5Recipe : RState String :=
  ((Recipe.init "test").add_beaker "word" (some "Word")).add_transform
    "word" "capitalized" (fun v => .ok (some v)) "capitalized" none []

/-- C5 (counterexample): after this declaration sequence the graph has the node
"capitalized" but the beaker mapping has no such key, refuting the claimed
invariant over arbitrary declaration sequences. -/
theorem add_transform_breaks_alignment : ¬ nodesBeakersAligned c5Recipe := by
  decide

/-- C5 (amended): the node-set/beaker-key-set invariant is preserved by
add_beaker and add_seed unconditionally, by add_transform when both endpoints
are already nodes, and by add_conditional when the source is already a node and
the false branch is absent, an existing node, or the true branch; an
add_transform naming a fresh endpoint, however, creates that graph node with no
corresponding Beaker (DiGraph.add_edge auto-creates nodes), so the invariant
does not hold over arbitrary declaration sequences. -/
theorem nodes_match_beakers_amended {α : Type} :
    (∀ (r : RState α) (n : String) (dt : Option String),
      nodesBeakersAligned r → nodesBeakersAligned (r.add_beaker n dt))
    ∧ (∀ (r : RState α) (sn bn : String) (its : List (BVal α)),
      nodesBeakersAligned r → nodesBeakersAligned (r.add_seed sn bn its))
    ∧ (∀ (r : RState α) (f t : String) (func : BVal α → TRes α) (fn : String)
        (nm : Option String) (em : List (List Nat × String)),
      nodesBeakersAligned r → f ∈ r.nodes → t ∈ r.nodes →
      nodesBeakersAligned (r.add_transform f t func fn nm em))
    ∧ (∀ (r : RState α) (f : String) (cond : BVal α → Bool) (cn it if_f : String),
      nodesBeakersAligned r → f ∈ r.nodes →
      (if_f = "" ∨ if_f ∈ r.nodes ∨ if_f = it) →
      nodesBeakersAligned (r.add_conditional f cond cn it if_f)) :=
  ⟨aligned_add_beaker, aligned_add_seed, aligned_add_transform,
   aligned_add_conditional⟩

/-- Base recipe of the alignment witness. -/
def c5Base : RState String := (Recipe.init "w").add_beaker "a" (some "T")

theorem nodes_match_beakers_amended_witness :
    nodesBeakersAligned (c5Base.add_beaker "b" none)
    ∧ nodesBeakersAligned (c5Base.add_seed "s" "a" [])
    ∧ nodesBeakersAligned
        (c5Base.add_transform "a" "a" (fun v => .ok (some v)) "f" none [])
    ∧ nodesBeakersAligned
        (c5Base.add_conditional "a" (fun _ => true) "<lambda>" "yes" "") :=
  ⟨(nodes_match_beakers_amended (α := String)).1 c5Base "b" none (by decide),
   (nodes_match_beakers_amended (α := String)).2.1 c5Base "s" "a" [] (by decide),
   (nodes_match_beakers_amended (α := String)).2.2.1 c5Base "a" "a" _ "f" none []
     (by decide) (by decide) (by decide),
   (nodes_match_beakers_amended (α := String)).2.2.2 c5Base "a" _ "<lambda>" "yes" ""
     (by decide) (by decide) (Or.inl rfl)⟩

/-! ## C6: add_conditional structure -/

/-- Base recipe for the conditional demonstrations. -/
def c6Base : RState String := (Recipe.init "test").add_beaker "word" (some "Word")

/-- A conditional declared over an existing beaker with both branches given:
the false branch "no" never receives a beaker declaration. -/
def c6Recipe : RState String :=
  c6Base.add_conditional "word" (fun _ => true) "<lambda>" "yes" "no"

/-- C6 (counterexample): add_conditional with the false branch "no" leaves "no"
a graph node without any declared beaker, refuting the claim that both branches
are declared as Temporary Beakers. -/
theorem add_conditional_if_false_undeclared :
    "no" ∈ c6Recipe.nodes ∧ "no" ∉ c6Recipe.beakers.map Prod.fst := by
  decide

/-- C6 (amended): after add_conditional with a false branch given, the synthetic
intermediate Temporary Beaker exists, named cond-<from> for an anonymous
predicate and cond-<from>-<predicate name> for a named one, and if_true is
declared as a Temporary Beaker — these two are exactly the beakers declared:
if_false is only referenced by the false-branch filtering transform, becoming a
bare graph node with no beaker. Both filtering transforms from the synthetic
node exist, and they unwrap the record and route it by the recorded boolean
(the true branch keeps the record when the boolean is true, the false branch
when it is false). -/
theorem add_conditional_structure {α : Type} (r : RState α) (from_b : String)
    (cond : BVal α → Bool) (cn : String) (if_t if_f : String)
    (hne : if_f ≠ "") (hft : if_f ≠ if_t)
    (htc : if_t ≠ (if cn = "<lambda>" then "cond-" ++ from_b
                   else "cond-" ++ from_b ++ "-" ++ cn))
    (hfc : if_f ≠ (if cn = "<lambda>" then "cond-" ++ from_b
                   else "cond-" ++ from_b ++ "-" ++ cn))
    (hfr : r.beakers.lookup if_f = none) :
    (r.add_conditional from_b cond cn if_t if_f).beakers =
      assocSet
        (assocSet r.beakers
          (if cn = "<lambda>" then "cond-" ++ from_b
           else "cond-" ++ from_b ++ "-" ++ cn)
          { temp := true, items := [] })
        if_t { temp := true, items := [] }
    ∧ (r.add_conditional from_b cond cn if_t if_f).beakers.lookup
        (if cn = "<lambda>" then "cond-" ++ from_b
         else "cond-" ++ from_b ++ "-" ++ cn) =
        some { temp := true, items := [] }
    ∧ (r.add_conditional from_b cond cn if_t if_f).beakers.lookup if_t =
        some { temp := true, items := [] }
    ∧ (r.add_conditional from_b cond cn if_t if_f).beakers.lookup if_f = none
    ∧ if_f ∈ (r.add_conditional from_b cond cn if_t if_f).nodes
    ∧ (∃ tr : Transform α,
        (⟨(if cn = "<lambda>" then "cond-" ++ from_b
           else "cond-" ++ from_b ++ "-" ++ cn), if_t, tr⟩ : REdge α) ∈
          (r.add_conditional from_b cond cn if_t if_f).edges
        ∧ tr.transform_func = if_cond_true)
    ∧ (∃ tr : Transform α,
        (⟨(if cn = "<lambda>" then "cond-" ++ from_b
           else "cond-" ++ from_b ++ "-" ++ cn), if_f, tr⟩ : REdge α) ∈
          (r.add_conditional from_b cond cn if_t if_f).edges
        ∧ tr.transform_func = if_cond_false)
    ∧ (∀ (d : BVal α) (b : Bool),
        if_cond_true (.condPair d b) = .ok (if b then some d else none)
        ∧ if_cond_false (.condPair d b) = .ok (if b then none else some d)) := by
  set cname := (if cn = "<lambda>" then "cond-" ++ from_b
                else "cond-" ++ from_b ++ "-" ++ cn) with hcname
  have hbk : (r.add_conditional from_b cond cn if_t if_f).beakers =
      assocSet (assocSet r.beakers cname { temp := true, items := [] })
        if_t { temp := true, items := [] } := by
    simp only [RState.add_conditional]
    rw [if_pos hne]
    simp only [add_transform_beakers, add_beaker_beakers]
    rfl
  have hnodes : if_f ∈ (r.add_conditional from_b cond cn if_t if_f).nodes := by
    simp only [RState.add_conditional]
    rw [if_pos hne]
    simp only [add_transform_nodes, add_beaker_nodes]
    exact mem_addNode_self _ _
  have hedges : (r.add_conditional from_b cond cn if_t if_f).edges =
      addEdge
        (addEdge
          (addEdge r.edges from_b cname
            { name := cname,
              transform_func := fun data => .ok (some (.condPair data (cond data))),
              error_map := [] })
          cname if_t
          { name := "if_cond_true", transform_func := if_cond_true, error_map := [] })
        cname if_f
        { name := "if_cond_false", transform_func := if_cond_false,
          error_map := [] } := by
    simp only [RState.add_conditional]
    rw [if_pos hne]
    simp only [add_transform_edges_some, add_transform_edges_none, add_beaker_edges]
    rfl
  refine ⟨hbk, ?_, ?_, ?_, hnodes, ?_, ?_, fun d b => ⟨rfl, rfl⟩⟩
  · rw [hbk, assocSet_lookup_ne _ _ _ _ (Ne.symm htc), assocSet_lookup_self]
  · rw [hbk, assocSet_lookup_self]
  · rw [hbk, assocSet_lookup_ne _ _ _ _ hft, assocSet_lookup_ne _ _ _ _ hfc, hfr]
  · refine ⟨{ name := "if_cond_true", transform_func := if_cond_true,
              error_map := [] }, ?_, rfl⟩
    rw [hedges]
    apply addEdge_mem_preserve
    · exact addEdge_mem_self _ _ _ _
    · intro hpair
      exact hft hpair.2.symm
  · exact ⟨{ name := "if_cond_false", transform_func := if_cond_false,
             error_map := [] }, by rw [hedges]; exact addEdge_mem_self _ _ _ _, rfl⟩

theorem add_conditional_structure_witness :
    (c6Base.add_conditional "word" (fun _ => true) "<lambda>" "yes" "no").beakers =
      assocSet (assocSet c6Base.beakers "cond-word" { temp := true, items := [] })
        "yes" { temp := true, items := [] }
    ∧ (c6Base.add_conditional "word" (fun _ => true) "<lambda>" "yes" "no").beakers.lookup
        "cond-word" = some { temp := true, items := [] }
    ∧ (c6Base.add_conditional "word" (fun _ => true) "<lambda>" "yes" "no").beakers.lookup
        "yes" = some { temp := true, items := [] }
    ∧ (c6Base.add_conditional "word" (fun _ => true) "<lambda>" "yes" "no").beakers.lookup
        "no" = none
    ∧ "no" ∈ (c6Base.add_conditional "word" (fun _ => true) "<lambda>" "yes" "no").nodes
    ∧ (∃ tr : Transform String,
        (⟨"cond-word", "yes", tr⟩ : REdge String) ∈
          (c6Base.add_conditional "word" (fun _ => true) "<lambda>" "yes" "no").edges
        ∧ tr.transform_func = if_cond_true)
    ∧ (∃ tr : Transform String,
        (⟨"cond-word", "no", tr⟩ : REdge String) ∈
          (c6Base.add_conditional "word" (fun _ => true) "<lambda>" "yes" "no").edges
        ∧ tr.transform_func = if_cond_false)
    ∧ (∀ (d : BVal String) (b : Bool),
        if_cond_true (.condPair d b) = .ok (if b then some d else none)
        ∧ if_cond_false (.condPair d b) = .ok (if b then none else some d)) :=
  add_conditional_structure c6Base "word" (fun _ => true) "<lambda>" "yes" "no"
    (by decide) (by decide) (by decide) (by decide) (by decide)



/-! ## Engine lemmas: per-edge processing -/

theorem id_set_add_item_fresh {α : Type} (b : Beaker α) (v : BVal α) (id : ItemId)
    (h : id ∉ b.id_set) : (b.add_item v id).id_set = b.id_set ++ [id] := by
  simp [Beaker.id_set, add_item_fresh_append b v id h]

theorem temp_add_item {α : Type} (b : Beaker α) (v : BVal α) (id : ItemId) :
    (b.add_item v id).temp = b.temp := by
  by_cases h : id ∈ b.id_set <;> simp [Beaker.add_item, h]

theorem getBeakerD_of_lookup {α : Type} (bs : Beakers α) (n : String) (b : Beaker α)
    (h : bs.lookup n = some b) : getBeakerD bs n = b := by
  simp [getBeakerD, h]

/-- The records an edge appends to its destination beaker: one per source item
whose id is not in `already`, in source order, whose transform result is
truthy. -/
def edgeNewRecords {α : Type} (t : Transform α) (already : List ItemId)
    (items : List (ItemId × BVal α)) : List (ItemId × BVal α) :=
  items.filterMap fun p =>
    if p.1 ∈ already then none
    else
      match t.transform_func p.2 with
      | .ok (some v) => some (p.1, v)
      | _ => none

theorem processItems_skip_all {α : Type} (isInst : Nat → Nat → Bool) (to_b : String)
    (t : Transform α) (already : List ItemId) :
    ∀ (items : List (ItemId × BVal α)) (bs : Beakers α) (acc : List ItemId),
      (∀ p ∈ items, p.1 ∈ already) →
      processItems isInst to_b t already items bs acc =
        { beakers := bs, processed := acc, error := none } := by
  intro items
  induction items with
  | nil => intro bs acc _; rfl
  | cons p rest ih =>
    intro bs acc hall
    obtain ⟨id, item⟩ := p
    have hmem : id ∈ already := hall (id, item) (List.mem_cons_self _ _)
    simp only [processItems, if_pos hmem]
    exact ih bs acc fun q hq => hall q (List.mem_cons_of_mem _ hq)

theorem processEdge_skip_all {α : Type} (isInst : Nat → Nat → Bool)
    (bs : Beakers α) (from_b to_b : String) (t : Transform α)
    (h : ∀ i ∈ (getBeakerD bs from_b).id_set, i ∈ (getBeakerD bs to_b).id_set) :
    processEdge isInst bs from_b to_b t =
      { beakers := bs, processed := [], error := none } := by
  apply processItems_skip_all
  intro p hp
  have hin : p.1 ∈ (getBeakerD bs from_b).id_set :=
    List.mem_map.mpr ⟨p, hp, rfl⟩
  exact List.mem_filter.mpr ⟨hin, by simpa using h p.1 hin⟩

theorem processItems_spec {α : Type} (isInst : Nat → Nat → Bool) (to_b : String)
    (t : Transform α) (already : List ItemId) :
    ∀ (items : List (ItemId × BVal α)) (bs : Beakers α) (acc : List ItemId),
      (∀ p ∈ items, p.1 ∉ already → ∃ ov, t.transform_func p.2 = .ok ov) →
      (∀ p ∈ items, p.1 ∉ already → p.1 ∉ (getBeakerD bs to_b).id_set) →
      (items.map Prod.fst).Nodup →
      (bs.lookup to_b).isSome →
      (processItems isInst to_b t already items bs acc).error = none
      ∧ (processItems isInst to_b t already items bs acc).processed =
          acc ++ ((items.filter fun p => p.1 ∉ already).map Prod.fst)
      ∧ (getBeakerD (processItems isInst to_b t already items bs acc).beakers to_b).items
          = (getBeakerD bs to_b).items ++ edgeNewRecords t already items
      ∧ (getBeakerD (processItems isInst to_b t already items bs acc).beakers to_b).temp
          = (getBeakerD bs to_b).temp
      ∧ (∀ m, m ≠ to_b →
          (processItems isInst to_b t already items bs acc).beakers.lookup m =
            bs.lookup m)
      ∧ ((processItems isInst to_b t already items bs acc).beakers.lookup to_b).isSome := by
  intro items
  induction items with
  | nil =>
    intro bs acc _ _ _ hsome
    exact ⟨rfl, by simp [processItems], by simp [processItems, edgeNewRecords],
      rfl, fun m _ => rfl, hsome⟩
  | cons p rest ih =>
    intro bs acc hok hfresh hnodup hsome
    obtain ⟨id, item⟩ := p
    by_cases hmem : id ∈ already
    · have hrec := ih bs acc
        (fun q hq hq2 => hok q (List.mem_cons_of_mem _ hq) hq2)
        (fun q hq hq2 => hfresh q (List.mem_cons_of_mem _ hq) hq2)
        (by simpa using hnodup.of_cons) hsome
      simp only [processItems, if_pos hmem]
      refine ⟨hrec.1, ?_, ?_, hrec.2.2.2.1, hrec.2.2.2.2.1, hrec.2.2.2.2.2⟩
      · rw [hrec.2.1]
        simp [List.filter_cons, hmem]
      · rw [hrec.2.2.1]
        simp [edgeNewRecords, List.filterMap_cons, hmem]
    · obtain ⟨ov, hov⟩ := hok (id, item) (List.mem_cons_self _ _) hmem
      have hid_fresh : id ∉ (getBeakerD bs to_b).id_set :=
        hfresh (id, item) (List.mem_cons_self _ _) hmem
      cases ov with
      | some v =>
        have hstep : processItems isInst to_b t already ((id, item) :: rest) bs acc =
            processItems isInst to_b t already rest
              (updateBeaker bs to_b fun b => b.add_item v id) (acc ++ [id]) := by
          simp only [processItems, if_neg hmem, handleItem, hov]
        set bs2 := updateBeaker bs to_b fun b => b.add_item v id with hbs2
        have hlook2 : bs2.lookup to_b =
            some ((getBeakerD bs to_b).add_item v id) := by
          rw [hbs2, lookup_updateBeaker_self]
          obtain ⟨b0, hb0⟩ := Option.isSome_iff_exists.mp hsome
          simp [hb0, getBeakerD_of_lookup bs to_b b0 hb0]
        have hget2 : getBeakerD bs2 to_b = (getBeakerD bs to_b).add_item v id :=
          getBeakerD_of_lookup _ _ _ hlook2
        have hids2 : (getBeakerD bs2 to_b).id_set =
            (getBeakerD bs to_b).id_set ++ [id] := by
          rw [hget2, id_set_add_item_fresh _ _ _ hid_fresh]
        have hrec := ih bs2 (acc ++ [id])
          (fun q hq hq2 => hok q (List.mem_cons_of_mem _ hq) hq2)
          (fun q hq hq2 => by
            rw [hids2]
            intro hin
            rcases List.mem_append.mp hin with hin1 | hin2
            · exact hfresh q (List.mem_cons_of_mem _ hq) hq2 hin1
            · have : q.1 = id := by simpa using hin2
              have : id ∈ rest.map Prod.fst := this ▸ List.mem_map.mpr ⟨q, hq, rfl⟩
              exact (List.nodup_cons.mp (by simpa using hnodup)).1 this)
          (by simpa using hnodup.of_cons)
          (by rw [hlook2]; rfl)
        rw [hstep]
        refine ⟨hrec.1, ?_, ?_, ?_, ?_, hrec.2.2.2.2.2⟩
        · rw [hrec.2.1]
          simp [List.filter_cons, hmem]
        · rw [hrec.2.2.1, hget2, add_item_fresh_append _ _ _ hid_fresh]
          simp [edgeNewRecords, List.filterMap_cons, hmem, hov]
        · rw [hrec.2.2.2.1, hget2, temp_add_item]
        · intro m hm
          rw [hrec.2.2.2.2.1 m hm, hbs2, lookup_updateBeaker_ne _ _ _ _ hm]
      | none =>
        have hstep : processItems isInst to_b t already ((id, item) :: rest) bs acc =
            processItems isInst to_b t already rest bs (acc ++ [id]) := by
          simp only [processItems, if_neg hmem, handleItem, hov]
        have hrec := ih bs (acc ++ [id])
          (fun q hq hq2 => hok q (List.mem_cons_of_mem _ hq) hq2)
          (fun q hq hq2 => hfresh q (List.mem_cons_of_mem _ hq) hq2)
          (by simpa using hnodup.of_cons) hsome
        rw [hstep]
        refine ⟨hrec.1, ?_, ?_, hrec.2.2.2.1, hrec.2.2.2.2.1, hrec.2.2.2.2.2⟩
        · rw [hrec.2.1]
          simp [List.filter_cons, hmem]
        · rw [hrec.2.2.1]
          simp [edgeNewRecords, List.filterMap_cons, hmem, hov]

theorem map_fst_filter_not_mem {γ : Type} (l : List (ItemId × γ)) (S : List ItemId) :
    (l.filter fun p => p.1 ∉ S).map Prod.fst =
      (l.map Prod.fst).filter fun i => i ∉ S := by
  induction l with
  | nil => rfl
  | cons q rest ih =>
    by_cases hq : q.1 ∈ S <;> simp [List.filter_cons, hq] <;> simpa using ih

theorem processEdge_spec {α : Type} (isInst : Nat → Nat → Bool) (bs : Beakers α)
    (from_b to_b : String) (t : Transform α)
    (hnodup : (getBeakerD bs from_b).id_set.Nodup)
    (hok : ∀ p ∈ (getBeakerD bs from_b).items, ∃ ov, t.transform_func p.2 = .ok ov)
    (hsome : (bs.lookup to_b).isSome) :
    (processEdge isInst bs from_b to_b t).error = none
    ∧ (processEdge isInst bs from_b to_b t).processed =
        (getBeakerD bs from_b).id_set.filter
          (fun i => i ∉ (getBeakerD bs to_b).id_set)
    ∧ (getBeakerD (processEdge isInst bs from_b to_b t).beakers to_b).items =
        (getBeakerD bs to_b).items ++
          (getBeakerD bs from_b).items.filterMap (fun p =>
            if p.1 ∈ (getBeakerD bs to_b).id_set then none
            else
              match t.transform_func p.2 with
              | .ok (some v) => some (p.1, v)
              | _ => none)
    ∧ (getBeakerD (processEdge isInst bs from_b to_b t).beakers to_b).temp =
        (getBeakerD bs to_b).temp
    ∧ (∀ m, m ≠ to_b →
        (processEdge isInst bs from_b to_b t).beakers.lookup m = bs.lookup m)
    ∧ ((processEdge isInst bs from_b to_b t).beakers.lookup to_b).isSome := by
  have hmem_iff : ∀ (i : ItemId), i ∈ (getBeakerD bs from_b).id_set →
      (i ∈ (getBeakerD bs from_b).id_set.filter
        (fun j => j ∈ (getBeakerD bs to_b).id_set)
       ↔ i ∈ (getBeakerD bs to_b).id_set) := by
    intro i hin
    constructor
    · intro h
      exact of_decide_eq_true (List.mem_filter.mp h).2
    · intro h
      exact List.mem_filter.mpr ⟨hin, decide_eq_true h⟩
  have hspec := processItems_spec isInst to_b t
    ((getBeakerD bs from_b).id_set.filter
      fun j => j ∈ (getBeakerD bs to_b).id_set)
    (getBeakerD bs from_b).items bs []
    (fun p hp _ => hok p hp)
    (fun p hp hnp => by
      intro hcontra
      exact hnp ((hmem_iff p.1 (List.mem_map.mpr ⟨p, hp, rfl⟩)).mpr hcontra))
    hnodup hsome
  have hpe : processEdge isInst bs from_b to_b t =
      processItems isInst to_b t
        ((getBeakerD bs from_b).id_set.filter
          fun j => j ∈ (getBeakerD bs to_b).id_set)
        (getBeakerD bs from_b).items bs [] := rfl
  refine ⟨hspec.1, ?_, ?_, hspec.2.2.2.1, hspec.2.2.2.2.1, hspec.2.2.2.2.2⟩
  · rw [hpe, hspec.2.1, List.nil_append, map_fst_filter_not_mem]
    have hid : (getBeakerD bs from_b).items.map Prod.fst =
        (getBeakerD bs from_b).id_set := rfl
    rw [hid]
    apply List.filter_congr
    intro i hi
    have hiff := hmem_iff i hi
    simp only [decide_eq_decide]
    constructor
    · intro hni hin2
      exact hni (hiff.mpr hin2)
    · intro hni hin2
      exact hni (hiff.mp hin2)
  · rw [hpe, hspec.2.2.1, edgeNewRecords]
    congr 1
    apply List.filterMap_congr
    intro p hp
    have hiff := hmem_iff p.1 (List.mem_map.mpr ⟨p, hp, rfl⟩)
    by_cases h : p.1 ∈ (getBeakerD bs to_b).id_set
    · rw [if_pos (hiff.mpr h), if_pos h]
    · rw [if_neg (fun hc => h (hiff.mp hc)), if_neg h]

/-! ## Two-node runs -/

theorem topoSort_pair (nA nB : String) (hne : nA ≠ nB) :
    topoSort [nA, nB] [(nA, nB)] = [nA, nB] := by
  have h1 : pickReady [(nA, nB)] [nA, nB] = some nA := by
    simp [pickReady, List.find?, Ne.symm hne]
  have h2 : pickReady [(nA, nB)] [nB] = some nB := by
    simp [pickReady, List.find?, hne]
  simp [topoSort, topoGo, h1, h2, List.erase_cons_head, hne]

theorem run_once_pair {α : Type} (isInst : Nat → Nat → Bool) (r : RState α)
    (nA nB : String) (t : Transform α) (hne : nA ≠ nB)
    (hnodes : r.nodes = [nA, nB]) (hedges : r.edges = [⟨nA, nB, t⟩])
    (herr : (processEdge isInst r.beakers nA nB t).error = none) :
    r.run_once isInst none none =
      { beakers := (processEdge isInst r.beakers nA nB t).beakers,
        log := [(nA, nB, (processEdge isInst r.beakers nA nB t).processed)],
        abortedAt := none, error := none } := by
  rw [RState.run_once, hnodes, hedges]
  have htopo : topoSort [nA, nB] (edgePairs [(⟨nA, nB, t⟩ : REdge α)]) = [nA, nB] := by
    rw [show edgePairs [(⟨nA, nB, t⟩ : REdge α)] = [(nA, nB)] from rfl]
    exact topoSort_pair nA nB hne
  rw [htopo]
  have houtA : outEdges [(⟨nA, nB, t⟩ : REdge α)] nA = [⟨nA, nB, t⟩] := by
    simp [outEdges]
  have houtB : outEdges [(⟨nA, nB, t⟩ : REdge α)] nB = [] := by
    simp [outEdges, hne]
  simp only [runNodes, Option.isNone_none, Bool.true_or, if_pos]
  rw [if_neg (by simp : ¬(none : Option String) = some nA)]
  rw [houtA]
  simp only [processEdges, herr]
  rw [if_neg (by simp : ¬(none : Option String) = some nB)]
  rw [houtB]
  simp [runNodes, processEdges]

theorem filterMap_all_some {β γ : Type} (l : List β) (f : β → γ) :
    l.filterMap (fun x => some (f x)) = l.map f := by
  induction l with
  | nil => rfl
  | cons x rest ih => simp [List.filterMap_cons, ih]

/-- C1: for every edge (from, to), run_once feeds through the transform exactly
the ids present in the source beaker but absent from the destination (the
processed-ids conjunct), inserting each truthy transformed result into the
destination under the source id (the destination-items conjunct), touching no
other beaker — stated for an arbitrary beaker state, hence for the state at
which any edge of a run executes, under the hypotheses that the transform
raises no exception on the source items, that the source ids are distinct, and
that the destination beaker exists; consequently (second conjunct), for a
recipe A → B with N distinct ids in A, a transform that maps every record, and
B initially empty, the first run_once inserts each transformed record into B
exactly once (B becomes exactly the id-preserving image of A) and a second
run_once processes zero items and changes nothing. -/
theorem run_once_idempotent {α : Type} :
    (∀ (isInst : Nat → Nat → Bool) (bs : Beakers α) (from_b to_b : String)
        (t : Transform α),
      (getBeakerD bs from_b).id_set.Nodup →
      (∀ p ∈ (getBeakerD bs from_b).items, ∃ ov, t.transform_func p.2 = .ok ov) →
      (bs.lookup to_b).isSome →
      (processEdge isInst bs from_b to_b t).error = none
      ∧ (processEdge isInst bs from_b to_b t).processed =
          (getBeakerD bs from_b).id_set.filter
            (fun i => i ∉ (getBeakerD bs to_b).id_set)
      ∧ (getBeakerD (processEdge isInst bs from_b to_b t).beakers to_b).items =
          (getBeakerD bs to_b).items ++
            (getBeakerD bs from_b).items.filterMap (fun p =>
              if p.1 ∈ (getBeakerD bs to_b).id_set then none
              else
                match t.transform_func p.2 with
                | .ok (some v) => some (p.1, v)
                | _ => none)
      ∧ (∀ m, m ≠ to_b →
          (processEdge isInst bs from_b to_b t).beakers.lookup m = bs.lookup m))
    ∧ (∀ (isInst : Nat → Nat → Bool) (nA nB : String) (bA : Beaker α) (tB : Bool)
        (t : Transform α) (g : BVal α → BVal α) (r : RState α),
      r.nodes = [nA, nB] → r.edges = [⟨nA, nB, t⟩] →
      r.beakers = [(nA, bA), (nB, { temp := tB, items := [] })] →
      nA ≠ nB → bA.id_set.Nodup →
      (∀ p ∈ bA.items, t.transform_func p.2 = .ok (some (g p.2))) →
      (r.run_once isInst none none).error = none
      ∧ (r.run_once isInst none none).log = [(nA, nB, bA.id_set)]
      ∧ (getBeakerD (r.run_once isInst none none).beakers nB).items =
          bA.items.map (fun p => (p.1, g p.2))
      ∧ (r.run_once isInst none none).beakers.lookup nA = some bA
      ∧ ({ r with beakers := (r.run_once isInst none none).beakers
           : RState α }.run_once isInst none none).beakers =
          (r.run_once isInst none none).beakers
      ∧ ({ r with beakers := (r.run_once isInst none none).beakers
           : RState α }.run_once isInst none none).log = [(nA, nB, [])]
      ∧ ({ r with beakers := (r.run_once isInst none none).beakers
           : RState α }.run_once isInst none none).error = none) := by
  constructor
  · intro isInst bs from_b to_b t hnodup hok hsome
    have h := processEdge_spec isInst bs from_b to_b t hnodup hok hsome
    exact ⟨h.1, h.2.1, h.2.2.1, h.2.2.2.2.1⟩
  · intro isInst nA nB bA tB t g r hn he hb hne hnodup hg
    have hlookA : r.beakers.lookup nA = some bA := by
      rw [hb]
      simp [List.lookup]
    have hlookB : r.beakers.lookup nB = some { temp := tB, items := [] } := by
      rw [hb]
      have hba : (nB == nA) = false := beq_false_of_ne (Ne.symm hne)
      simp [List.lookup, hba]
    have hgetA : getBeakerD r.beakers nA = bA := getBeakerD_of_lookup _ _ _ hlookA
    have hgetB : getBeakerD r.beakers nB = { temp := tB, items := [] } :=
      getBeakerD_of_lookup _ _ _ hlookB
    have hok : ∀ p ∈ (getBeakerD r.beakers nA).items,
        ∃ ov, t.transform_func p.2 = .ok ov := by
      rw [hgetA]
      intro p hp
      exact ⟨some (g p.2), hg p hp⟩
    have hspec := processEdge_spec isInst r.beakers nA nB t
      (by rw [hgetA]; exact hnodup) hok (by rw [hlookB]; rfl)
    have hrun := run_once_pair isInst r nA nB t hne hn he hspec.1
    have hproc : (processEdge isInst r.beakers nA nB t).processed = bA.id_set := by
      rw [hspec.2.1, hgetA, hgetB]
      simp [Beaker.id_set]
    have hBitems :
        (getBeakerD (processEdge isInst r.beakers nA nB t).beakers nB).items =
          bA.items.map (fun p => (p.1, g p.2)) := by
      rw [hspec.2.2.1, hgetA, hgetB]
      have hcongr : bA.items.filterMap (fun p =>
          if p.1 ∈ Beaker.id_set ({ temp := tB, items := [] } : Beaker α) then none
          else
            match t.transform_func p.2 with
            | .ok (some v) => some (p.1, v)
            | _ => none) =
          bA.items.filterMap (fun p => some (p.1, g p.2)) := by
        apply List.filterMap_congr
        intro p hp
        simp [Beaker.id_set, hg p hp]
      simp only [hcongr, filterMap_all_some]
      simp [Beaker.id_set]
    have hlookA2 : (processEdge isInst r.beakers nA nB t).beakers.lookup nA =
        some bA := by
      rw [hspec.2.2.2.2.1 nA hne, hlookA]
    have hgetB2 : ∃ b2, (processEdge isInst r.beakers nA nB t).beakers.lookup nB =
        some b2 := Option.isSome_iff_exists.mp hspec.2.2.2.2.2
    obtain ⟨b2, hb2⟩ := hgetB2
    have hid2 : b2.id_set = bA.id_set := by
      have : b2.items = bA.items.map (fun p => (p.1, g p.2)) := by
        rw [← hBitems, getBeakerD_of_lookup _ _ _ hb2]
      simp [Beaker.id_set, this, List.map_map, Function.comp]
    have hskip := processEdge_skip_all isInst
      (processEdge isInst r.beakers nA nB t).beakers nA nB t
      (by
        rw [getBeakerD_of_lookup _ _ _ hlookA2, getBeakerD_of_lookup _ _ _ hb2,
          hid2]
        intro i hi
        exact hi)
    have hrun2 := run_once_pair isInst
      { r with beakers := (processEdge isInst r.beakers nA nB t).beakers }
      nA nB t hne (by simpa using hn) (by simpa using he)
      (by rw [hskip])
    rw [hrun]
    dsimp only
    rw [hrun2]
    dsimp only
    rw [hskip]
    dsimp only
    exact ⟨rfl, by rw [hproc], hBitems, hlookA2, rfl, rfl, rfl⟩

/-- The identity-like transform of the idempotency witness. -/
def c1Tr : Transform String :=
  { name := "t", transform_func := fun v => .ok (some v), error_map := [] }

/-- Source beaker of the idempotency witness: two records, ids 1 and 2. -/
def c1A : Beaker String :=
  { temp := false, items := [(1, .base "x"), (2, .base "y")] }

/-- The two-node recipe A → B of the idempotency witness. -/
def c1R : RState String :=
  { name := "c1", nodes := ["A", "B"],
    edges := [{ from_b := "A", to_b := "B", transform := c1Tr }],
    beakers := [("A", c1A), ("B", { temp := false, items := [] })],
    seeds := [], ledger := [] }

theorem run_once_idempotent_witness :
    ((processEdge (fun _ _ => false) c1R.beakers "A" "B" c1Tr).error = none
      ∧ (processEdge (fun _ _ => false) c1R.beakers "A" "B" c1Tr).processed = [1, 2]
      ∧ (getBeakerD (processEdge (fun _ _ => false) c1R.beakers "A" "B" c1Tr).beakers
          "B").items = [(1, BVal.base "x"), (2, BVal.base "y")])
    ∧ ((c1R.run_once (fun _ _ => false) none none).error = none
      ∧ (c1R.run_once (fun _ _ => false) none none).log = [("A", "B", [1, 2])]
      ∧ (getBeakerD (c1R.run_once (fun _ _ => false) none none).beakers "B").items =
          [(1, BVal.base "x"), (2, BVal.base "y")]
      ∧ ({ c1R with beakers := (c1R.run_once (fun _ _ => false) none none).beakers
            : RState String }.run_once (fun _ _ => false) none none).beakers =
          (c1R.run_once (fun _ _ => false) none none).beakers
      ∧ ({ c1R with beakers := (c1R.run_once (fun _ _ => false) none none).beakers
            : RState String }.run_once (fun _ _ => false) none none).log =
          [("A", "B", [])]) := by
  constructor
  · have h1 := (run_once_idempotent (α := String)).1 (fun _ _ => false)
      c1R.beakers "A" "B" c1Tr (by decide)
      (fun p _ => ⟨some p.2, rfl⟩) (by decide)
    exact ⟨h1.1, h1.2.1.trans (by decide), h1.2.2.1.trans (by decide)⟩
  · have h2 := (run_once_idempotent (α := String)).2 (fun _ _ => false)
      "A" "B" c1A false c1Tr (fun v => v) c1R rfl rfl rfl (by decide) (by decide)
      (fun p _ => rfl)
    exact ⟨h2.1, h2.2.1.trans (by decide), h2.2.2.1.trans (by decide),
      h2.2.2.2.2.1, h2.2.2.2.2.2.1⟩

/-! ## C2: routed transform errors -/

/-- C2: when a transform raises and some error-map entry matches the exception
(first match in declaration order, an entry matching when the exception kind is
an instance — subclasses included — of some class of its tuple: last conjunct),
the item loop inserts an ErrorType record wrapping the original item, the
exception message and its kind rendering into the matched destination beaker
under the source id (first and second conjuncts), inserts nothing into the
edge destination beaker (second conjunct), and continues with the next item
rather than aborting (third conjunct). -/
theorem error_routing {α : Type} :
    (∀ (isInst : Nat → Nat → Bool) (bs : Beakers α) (to_b : String)
        (t : Transform α) (id : ItemId) (item : BVal α) (e : Exc) (dest : String),
      t.transform_func item = .error e →
      errorMapMatch isInst t.error_map e = some dest →
      handleItem isInst bs to_b t id item =
        (updateBeaker bs dest
          (fun b => b.add_item (.errorWrap item e.msg e.type_str) id), none))
    ∧ (∀ (isInst : Nat → Nat → Bool) (bs : Beakers α) (to_b : String)
        (t : Transform α) (id : ItemId) (item : BVal α) (e : Exc) (dest : String),
      t.transform_func item = .error e →
      errorMapMatch isInst t.error_map e = some dest →
      dest ≠ to_b →
      (bs.lookup dest).isSome →
      id ∉ (getBeakerD bs dest).id_set →
      (getBeakerD (handleItem isInst bs to_b t id item).1 dest).items =
        (getBeakerD bs dest).items ++ [(id, .errorWrap item e.msg e.type_str)]
      ∧ (handleItem isInst bs to_b t id item).1.lookup to_b = bs.lookup to_b
      ∧ (handleItem isInst bs to_b t id item).2 = none)
    ∧ (∀ (isInst : Nat → Nat → Bool) (to_b : String) (t : Transform α)
        (already : List ItemId) (id : ItemId) (item : BVal α)
        (rest : List (ItemId × BVal α)) (bs : Beakers α) (acc : List ItemId)
        (e : Exc) (dest : String),
      t.transform_func item = .error e →
      errorMapMatch isInst t.error_map e = some dest →
      id ∉ already →
      processItems isInst to_b t already ((id, item) :: rest) bs acc =
        processItems isInst to_b t already rest
          (updateBeaker bs dest
            (fun b => b.add_item (.errorWrap item e.msg e.type_str) id))
          (acc ++ [id]))
    ∧ (∀ (isInst : Nat → Nat → Bool) (classes : List Nat) (dest : String)
        (rest : List (List Nat × String)) (e : Exc),
      ((classes.any fun c => isInst e.kind c) = true →
        errorMapMatch isInst ((classes, dest) :: rest) e = some dest)
      ∧ ((classes.any fun c => isInst e.kind c) = false →
        errorMapMatch isInst ((classes, dest) :: rest) e =
          errorMapMatch isInst rest e)) := by
  have hhandle : ∀ (isInst : Nat → Nat → Bool) (bs : Beakers α) (to_b : String)
      (t : Transform α) (id : ItemId) (item : BVal α) (e : Exc) (dest : String),
      t.transform_func item = .error e →
      errorMapMatch isInst t.error_map e = some dest →
      handleItem isInst bs to_b t id item =
        (updateBeaker bs dest
          (fun b => b.add_item (.errorWrap item e.msg e.type_str) id), none) := by
    intro isInst bs to_b t id item e dest herr hmatch
    simp [handleItem, herr, hmatch]
  refine ⟨hhandle, ?_, ?_, ?_⟩
  · intro isInst bs to_b t id item e dest herr hmatch hne hsome hfresh
    rw [hhandle isInst bs to_b t id item e dest herr hmatch]
    dsimp only
    refine ⟨?_, ?_, rfl⟩
    · rw [getBeakerD_updateBeaker_self bs dest _ hsome,
        add_item_fresh_append _ _ _ hfresh]
    · exact lookup_updateBeaker_ne bs dest to_b _ (Ne.symm hne)
  · intro isInst to_b t already id item rest bs acc e dest herr hmatch hmem
    simp only [processItems, if_neg hmem,
      hhandle isInst bs to_b t id item e dest herr hmatch]
  · intro isInst classes dest rest e
    constructor
    · intro h
      simp [errorMapMatch, h]
    · intro h
      simp [errorMapMatch, h]

/-- The raising transform of the error-routing witness: every record raises an
exception of kind 5 with message "boom"; kind 5 routes to beaker "errors". -/
def c2Tr : Transform String :=
  { name := "boom",
    transform_func := fun _ =>
      .error { kind := 5, msg := "boom", type_str := "<class 'KindX'>" },
    error_map := [([5], "errors")] }

/-- Beaker states for the error-routing witness: one source record, an empty
destination and an empty error beaker. -/
def c2Beakers : Beakers String :=
  [("A", { temp := false, items := [(1, .base "x")] }),
   ("B", { temp := false, items := [] }),
   ("errors", { temp := false, items := [] })]

theorem error_routing_witness :
    (handleItem (fun k c => k == c) c2Beakers "B" c2Tr 1 (.base "x") =
      (updateBeaker c2Beakers "errors"
        (fun b => b.add_item
          (.errorWrap (.base "x") "boom" "<class 'KindX'>") 1), none))
    ∧ ((getBeakerD (handleItem (fun k c => k == c) c2Beakers "B" c2Tr 1
          (.base "x")).1 "errors").items =
        [(1, .errorWrap (.base "x") "boom" "<class 'KindX'>")]
      ∧ (handleItem (fun k c => k == c) c2Beakers "B" c2Tr 1
          (.base "x")).1.lookup "B" = c2Beakers.lookup "B"
      ∧ (handleItem (fun k c => k == c) c2Beakers "B" c2Tr 1 (.base "x")).2 = none)
    ∧ (processItems (fun k c => k == c) "B" c2Tr [] [(1, .base "x")] c2Beakers [] =
        processItems (fun k c => k == c) "B" c2Tr [] []
          (updateBeaker c2Beakers "errors"
            (fun b => b.add_item
              (.errorWrap (.base "x") "boom" "<class 'KindX'>") 1))
          [1])
    ∧ errorMapMatch (fun k c => k == c) [([5], "errors")]
        { kind := 5, msg := "boom", type_str := "<class 'KindX'>" } =
        some "errors" := by
  have h := error_routing (α := String)
  refine ⟨?_, ?_, ?_, ?_⟩
  · exact h.1 (fun k c => k == c) c2Beakers "B" c2Tr 1 (.base "x")
      { kind := 5, msg := "boom", type_str := "<class 'KindX'>" } "errors" rfl rfl
  · have h2 := h.2.1 (fun k c => k == c) c2Beakers "B" c2Tr 1 (.base "x")
      { kind := 5, msg := "boom", type_str := "<class 'KindX'>" } "errors" rfl rfl
      (by decide) (by decide) (by decide)
    exact ⟨h2.1.trans (by decide), h2.2.1, h2.2.2⟩
  · exact h.2.2.1 (fun k c => k == c) "B" c2Tr [] 1 (.base "x") [] c2Beakers []
      { kind := 5, msg := "boom", type_str := "<class 'KindX'>" } "errors" rfl rfl
      (by decide)
  · exact (h.2.2.2 (fun k c => k == c) [5] "errors" []
      { kind := 5, msg := "boom", type_str := "<class 'KindX'>" }).1 (by decide)

/-! ## C3: unrouted transform errors abort the run -/

theorem topoGo_subset (edges : List (String × String)) :
    ∀ (fuel : Nat) (remaining : List String),
      ∀ n ∈ topoGo edges fuel remaining, n ∈ remaining := by
  intro fuel
  induction fuel with
  | zero => intro remaining n hn; cases hn
  | succ f ih =>
    intro remaining n hn
    simp only [topoGo] at hn
    cases hpick : pickReady edges remaining with
    | none => rw [hpick] at hn; cases hn
    | some m =>
      rw [hpick] at hn
      rcases List.mem_cons.mp hn with heq | htail
      · subst heq
        exact List.mem_of_find?_eq_some hpick
      · exact List.erase_subset _ _ (ih (remaining.erase m) n htail)

theorem topoGo_nodup (edges : List (String × String)) :
    ∀ (fuel : Nat) (remaining : List String), remaining.Nodup →
      (topoGo edges fuel remaining).Nodup := by
  intro fuel
  induction fuel with
  | zero => intro remaining _; exact List.nodup_nil
  | succ f ih =>
    intro remaining hnodup
    simp only [topoGo]
    cases hpick : pickReady edges remaining with
    | none => exact List.nodup_nil
    | some m =>
      refine List.nodup_cons.mpr ⟨?_, ih (remaining.erase m) (hnodup.erase m)⟩
      intro hmem
      have : m ∈ remaining.erase m :=
        topoGo_subset edges f (remaining.erase m) m hmem
      exact (List.Nodup.not_mem_erase hnodup) this

theorem processEdges_from {α : Type} (isInst : Nat → Nat → Bool) :
    ∀ (es : List (REdge α)) (bs : Beakers α),
      ∀ entry ∈ (processEdges isInst es bs).2.1, ∃ e ∈ es, entry.1 = e.from_b := by
  intro es
  induction es with
  | nil => intro bs entry hentry; cases hentry
  | cons e rest ih =>
    intro bs entry hentry
    simp only [processEdges] at hentry
    cases herr : (processEdge isInst bs e.from_b e.to_b e.transform).error with
    | none =>
      rw [herr] at hentry
      rcases List.mem_cons.mp hentry with heq | htail
      · exact ⟨e, List.mem_cons_self _ _, by rw [heq]⟩
      · obtain ⟨e2, he2, hfrom⟩ := ih _ entry htail
        exact ⟨e2, List.mem_cons_of_mem _ he2, hfrom⟩
    | some exc =>
      rw [herr] at hentry
      rcases List.mem_cons.mp hentry with heq | htail
      · exact ⟨e, List.mem_cons_self _ _, by rw [heq]⟩
      · cases htail

theorem runNodes_abort {α : Type} (isInst : Nat → Nat → Bool) (es : List (REdge α))
    (start_b end_b : Option String) :
    ∀ (order : List String) (started : Bool) (bs : Beakers α) (lg : RunLog),
      order.Nodup →
      (∀ entry ∈ lg, entry.1 ∉ order) →
      (runNodes isInst es start_b end_b order started bs lg).error.isSome →
      ∃ n pre post,
        (runNodes isInst es start_b end_b order started bs lg).abortedAt = some n
        ∧ order = pre ++ n :: post
        ∧ ∀ entry ∈ (runNodes isInst es start_b end_b order started bs lg).log,
            entry.1 ∉ post := by
  intro order
  induction order with
  | nil =>
    intro started bs lg _ _ herr
    simp [runNodes] at herr
  | cons n rest ih =>
    intro started bs lg hnodup hlg herr
    by_cases hstart : (started || start_b = some n : Bool) = true
    · by_cases hend : end_b = some n
      · rw [runNodes, if_pos hstart, if_pos hend] at herr
        simp at herr
      · rcases hpe : processEdges isInst (outEdges es n) bs with ⟨bs2, elog, oerr⟩
        have hstep : runNodes isInst es start_b end_b (n :: rest) started bs lg =
            match processEdges isInst (outEdges es n) bs with
            | (bs2, elog, none) =>
              runNodes isInst es start_b end_b rest true bs2 (lg ++ elog)
            | (bs2, elog, some e) =>
              { beakers := bs2, log := lg ++ elog, abortedAt := some n,
                error := some e } := by
          rw [runNodes, if_pos hstart, if_neg hend]
        have hlog_elog : ∀ entry ∈ elog, entry.1 = n := by
          intro entry hentry
          have : entry ∈ (processEdges isInst (outEdges es n) bs).2.1 := by
            rw [hpe]; exact hentry
          obtain ⟨e2, he2, hfrom⟩ := processEdges_from isInst _ bs entry this
          rw [hfrom]
          exact of_decide_eq_true (List.mem_filter.mp he2).2
        cases oerr with
        | none =>
          rw [hstep, hpe] at herr ⊢
          have hnot_n_rest : n ∉ rest := (List.nodup_cons.mp hnodup).1
          obtain ⟨n2, pre, post, hab, hsplit, hlog⟩ :=
            ih true bs2 (lg ++ elog) (List.nodup_cons.mp hnodup).2
              (by
                intro entry hentry hin
                rcases List.mem_append.mp hentry with h1 | h2
                · exact hlg entry h1 (List.mem_cons_of_mem _ hin)
                · rw [hlog_elog entry h2] at hin
                  exact hnot_n_rest hin)
              herr
          exact ⟨n2, n :: pre, post, hab, by rw [hsplit]; rfl, hlog⟩
        | some exc =>
          rw [hstep, hpe]
          refine ⟨n, [], rest, rfl, rfl, ?_⟩
          intro entry hentry
          rcases List.mem_append.mp hentry with h1 | h2
          · intro hin
            exact hlg entry h1 (List.mem_cons_of_mem _ hin)
          · rw [hlog_elog entry h2]
            exact (List.nodup_cons.mp hnodup).1
    · rw [runNodes, if_neg hstart] at herr ⊢
      obtain ⟨n2, pre, post, hab, hsplit, hlog⟩ :=
        ih started bs lg (List.nodup_cons.mp hnodup).2
          (fun entry hentry hin =>
            hlg entry hentry (List.mem_cons_of_mem _ hin))
          herr
      exact ⟨n2, n :: pre, post, hab, by rw [hsplit]; rfl, hlog⟩

/-- C3: when a transform raises an exception matching no entry of the edge
error map, the per-item handler re-raises it with the beaker states untouched
for that item (first conjunct), the item loop stops at that item without
processing the rest (second conjunct), and the exception propagates out of
run_once: the run records the aborting node and no edge of any node later in
the topological order is executed (third conjunct). -/
theorem unrouted_error_aborts {α : Type} :
    (∀ (isInst : Nat → Nat → Bool) (bs : Beakers α) (to_b : String)
        (t : Transform α) (id : ItemId) (item : BVal α) (e : Exc),
      t.transform_func item = .error e →
      errorMapMatch isInst t.error_map e = none →
      handleItem isInst bs to_b t id item = (bs, some e))
    ∧ (∀ (isInst : Nat → Nat → Bool) (to_b : String) (t : Transform α)
        (already : List ItemId) (id : ItemId) (item : BVal α)
        (rest : List (ItemId × BVal α)) (bs : Beakers α) (acc : List ItemId)
        (e : Exc),
      t.transform_func item = .error e →
      errorMapMatch isInst t.error_map e = none →
      id ∉ already →
      processItems isInst to_b t already ((id, item) :: rest) bs acc =
        { beakers := bs, processed := acc ++ [id], error := some e })
    ∧ (∀ (isInst : Nat → Nat → Bool) (r : RState α) (start_b end_b : Option String),
      r.nodes.Nodup →
      (r.run_once isInst start_b end_b).error.isSome →
      ∃ n pre post,
        (r.run_once isInst start_b end_b).abortedAt = some n
        ∧ topoSort r.nodes (edgePairs r.edges) = pre ++ n :: post
        ∧ ∀ entry ∈ (r.run_once isInst start_b end_b).log, entry.1 ∉ post) := by
  have hhandle : ∀ (isInst : Nat → Nat → Bool) (bs : Beakers α) (to_b : String)
      (t : Transform α) (id : ItemId) (item : BVal α) (e : Exc),
      t.transform_func item = .error e →
      errorMapMatch isInst t.error_map e = none →
      handleItem isInst bs to_b t id item = (bs, some e) := by
    intro isInst bs to_b t id item e herr hmatch
    simp [handleItem, herr, hmatch]
  refine ⟨hhandle, ?_, ?_⟩
  · intro isInst to_b t already id item rest bs acc e herr hmatch hmem
    simp only [processItems, if_neg hmem, hhandle isInst bs to_b t id item e herr hmatch]
  · intro isInst r start_b end_b hnodup herr
    exact runNodes_abort isInst r.edges start_b end_b
      (topoSort r.nodes (edgePairs r.edges)) start_b.isNone r.beakers []
      (topoGo_nodup _ _ _ hnodup) (by intro entry h; cases h) herr

/-- The raising transform of the abort witness: raises kind 7, no error map. -/
def c3Tr : Transform String :=
  { name := "boom",
    transform_func := fun _ =>
      .error { kind := 7, msg := "bad", type_str := "<class 'KindY'>" },
    error_map := [] }

/-- Chain A → B → C whose first edge raises an unrouted exception. -/
def c3R : RState String :=
  { name := "c3", nodes := ["A", "B", "C"],
    edges := [{ from_b := "A", to_b := "B", transform := c3Tr },
              { from_b := "B", to_b := "C",
                transform := { name := "ok",
                               transform_func := fun v => .ok (some v),
                               error_map := [] } }],
    beakers := [("A", { temp := false, items := [(1, .base "x")] }),
                ("B", { temp := false, items := [] }),
                ("C", { temp := false, items := [] })],
    seeds := [], ledger := [] }

theorem unrouted_error_aborts_witness :
    (handleItem (fun k c => k == c) c3R.beakers "B" c3Tr 1 (.base "x") =
      (c3R.beakers, some { kind := 7, msg := "bad", type_str := "<class 'KindY'>" }))
    ∧ (processItems (fun k c => k == c) "B" c3Tr [] [(1, .base "x")] c3R.beakers [] =
        { beakers := c3R.beakers, processed := [1],
          error := some { kind := 7, msg := "bad", type_str := "<class 'KindY'>" } })
    ∧ (∃ n pre post,
        (c3R.run_once (fun k c => k == c) none none).abortedAt = some n
        ∧ topoSort c3R.nodes (edgePairs c3R.edges) = pre ++ n :: post
        ∧ ∀ entry ∈ (c3R.run_once (fun k c => k == c) none none).log,
            entry.1 ∉ post)
    ∧ (c3R.run_once (fun k c => k == c) none none).error =
        some { kind := 7, msg := "bad", type_str := "<class 'KindY'>" }
    ∧ (c3R.run_once (fun k c => k == c) none none).abortedAt = some "A"
    ∧ (c3R.run_once (fun k c => k == c) none none).log = [("A", "B", [1])]
    ∧ (c3R.run_once (fun k c => k == c) none none).beakers = c3R.beakers := by
  have h := unrouted_error_aborts (α := String)
  refine ⟨?_, ?_, ?_, ?_, ?_, ?_, ?_⟩
  · exact h.1 (fun k c => k == c) c3R.beakers "B" c3Tr 1 (.base "x")
      { kind := 7, msg := "bad", type_str := "<class 'KindY'>" } rfl rfl
  · exact h.2.1 (fun k c => k == c) "B" c3Tr [] 1 (.base "x") [] c3R.beakers []
      { kind := 7, msg := "bad", type_str := "<class 'KindY'>" } rfl rfl (by decide)
  · exact h.2.2 (fun k c => k == c) c3R none none (by decide) (by decide)
  · decide
  · decide
  · decide
  · decide

/-! ## C7: graph_data ranks and ordering -/

/-- `TopoOk es done todo`: the enumeration `todo` is topological relative to
the already-visited prefix `done` — every predecessor of each node of `todo`
has been visited before it. -/
def TopoOk {α : Type} (es : List (REdge α)) : List String → List String → Prop
  | _, [] => True
  | done, n :: rest =>
    (∀ e ∈ es, e.to_b = n → e.from_b ∈ done) ∧ TopoOk es (done ++ [n]) rest

theorem pickReady_mem (edges : List (String × String)) (remaining : List String)
    (n : String) (h : pickReady edges remaining = some n) : n ∈ remaining :=
  List.mem_of_find?_eq_some h

theorem pickReady_no_incoming (edges : List (String × String))
    (remaining : List String) (n : String) (h : pickReady edges remaining = some n) :
    ∀ p ∈ edges, ¬(p.2 = n ∧ p.1 ∈ remaining) := by
  intro p hp
  have hfind := List.find?_some h
  simp only [Bool.not_eq_true', List.any_eq_false, decide_eq_true_eq] at hfind
  exact hfind p hp

theorem topoGo_topoOk {α : Type} (es : List (REdge α)) :
    ∀ (fuel : Nat) (remaining done : List String),
      (∀ e ∈ es, e.from_b ∈ done ∨ e.from_b ∈ remaining) →
      TopoOk es done (topoGo (edgePairs es) fuel remaining) := by
  intro fuel
  induction fuel with
  | zero => intro remaining done _; exact trivial
  | succ f ih =>
    intro remaining done hwf
    simp only [topoGo]
    cases hpick : pickReady (edgePairs es) remaining with
    | none => exact trivial
    | some n =>
      refine ⟨?_, ?_⟩
      · intro e he hto
        rcases hwf e he with hdone | hrem
        · exact hdone
        · exfalso
          exact pickReady_no_incoming (edgePairs es) remaining n hpick
            (e.from_b, e.to_b) (List.mem_map.mpr ⟨e, he, rfl⟩) ⟨hto, hrem⟩
      · apply ih
        intro e he
        rcases hwf e he with hdone | hrem
        · exact Or.inl (List.mem_append_left _ hdone)
        · by_cases heq : e.from_b = n
          · exact Or.inl (List.mem_append_right _ (by simp [heq]))
          · exact Or.inr (List.mem_erase_of_ne heq |>.mpr hrem)

theorem lookup_append_left_of_isSome {β : Type} (l1 l2 : List (String × β))
    (u : String) (h : (l1.lookup u).isSome) :
    (l1 ++ l2).lookup u = l1.lookup u := by
  obtain ⟨b, hb⟩ := Option.isSome_iff_exists.mp h
  rw [List.lookup_append, hb]
  rfl

theorem lookup_eq_none_of_not_mem_keys {β : Type} (l : List (String × β))
    (u : String) (h : u ∉ l.map Prod.fst) : l.lookup u = none := by
  cases hl : l.lookup u with
  | none => rfl
  | some b =>
    exact absurd (mem_keys_of_lookup_isSome l u (by rw [hl]; rfl)) h

theorem foldl_max_congr {α : Type} (f g : String → Nat) :
    ∀ (l : List (REdge α)) (init : Nat),
      (∀ e ∈ l, f e.from_b = g e.from_b) →
      l.foldl (fun m e => Nat.max m (f e.from_b)) init =
        l.foldl (fun m e => Nat.max m (g e.from_b)) init := by
  intro l
  induction l with
  | nil => intro init _; rfl
  | cons e rest ih =>
    intro init h
    simp only [List.foldl_cons]
    rw [h e (List.mem_cons_self _ _)]
    exact ih _ fun e2 he2 => h e2 (List.mem_cons_of_mem _ he2)

theorem lookup_isSome_of_mem_keys {β : Type} (l : List (String × β)) (u : String)
    (h : u ∈ l.map Prod.fst) : (l.lookup u).isSome := by
  induction l with
  | nil => cases h
  | cons p rest ih =>
    obtain ⟨k, b⟩ := p
    by_cases hk : u = k
    · subst hk
      simp [List.lookup]
    · have hrest : u ∈ rest.map Prod.fst := by
        rw [List.map_cons] at h
        rcases List.mem_cons.mp h with h1 | h2
        · exact absurd h1 hk
        · exact h2
      have hbk : (u == k) = false := beq_false_of_ne hk
      rw [List.lookup_cons, hbk]
      exact ih hrest

theorem gdGo_correct {α : Type} (r : RState α) :
    ∀ (todo : List String) (ranks : List (String × Nat)) (acc : List (NodeDesc α)),
      TopoOk r.edges (ranks.map Prod.fst) todo →
      (ranks.map Prod.fst ++ todo).Nodup →
      ∃ (ds : List (NodeDesc α)) (ext : List (String × Nat)),
        (gdGo r todo ranks acc).1 = acc ++ ds
        ∧ (gdGo r todo ranks acc).2 = ranks ++ ext
        ∧ ext.map Prod.fst = todo
        ∧ ds.map NodeDesc.name = todo
        ∧ ∀ d ∈ ds,
            d.temp = (getBeakerD r.beakers d.name).temp
            ∧ d.size = (getBeakerD r.beakers d.name).size
            ∧ d.edges =
                (outEdges r.edges d.name).map (fun e => (e.to_b, e.transform))
            ∧ (ranks ++ ext).lookup d.name = some d.rank
            ∧ d.rank = nodeRank r.edges (ranks ++ ext) d.name := by
  intro todo
  induction todo with
  | nil =>
    intro ranks acc _ _
    exact ⟨[], [], by simp [gdGo], by simp [gdGo], rfl, rfl, by intro d hd; cases hd⟩
  | cons n rest ih =>
    intro ranks acc htopo hnodup
    obtain ⟨hhead, htail⟩ := htopo
    have hn_not_ranks : n ∉ ranks.map Prod.fst := by
      intro hmem
      exact (List.disjoint_of_nodup_append hnodup) hmem (List.mem_cons_self _ _)
    have hstep : gdGo r (n :: rest) ranks acc =
        gdGo r rest (ranks ++ [(n, nodeRank r.edges ranks n)])
          (acc ++ [{ name := n, temp := (getBeakerD r.beakers n).temp,
                     size := (getBeakerD r.beakers n).size,
                     rank := nodeRank r.edges ranks n,
                     edges := (outEdges r.edges n).map
                       (fun e => (e.to_b, e.transform)) }]) := rfl
    have hkeys : (ranks ++ [(n, nodeRank r.edges ranks n)]).map Prod.fst =
        ranks.map Prod.fst ++ [n] := by simp
    have hnodup2 :
        ((ranks ++ [(n, nodeRank r.edges ranks n)]).map Prod.fst ++ rest).Nodup := by
      rw [hkeys, List.append_assoc]
      simpa using hnodup
    obtain ⟨ds, ext, h1, h2, h3, h4, h5⟩ :=
      ih (ranks ++ [(n, nodeRank r.edges ranks n)])
        (acc ++ [{ name := n, temp := (getBeakerD r.beakers n).temp,
                   size := (getBeakerD r.beakers n).size,
                   rank := nodeRank r.edges ranks n,
                   edges := (outEdges r.edges n).map
                     (fun e => (e.to_b, e.transform)) }])
        (by rw [hkeys]; exact htail) hnodup2
    have hlist : ranks ++ [(n, nodeRank r.edges ranks n)] ++ ext =
        ranks ++ ((n, nodeRank r.edges ranks n) :: ext) := by
      rw [List.append_assoc]
      rfl
    have hlook_n : (ranks ++ ((n, nodeRank r.edges ranks n) :: ext)).lookup n =
        some (nodeRank r.edges ranks n) := by
      rw [List.lookup_append, lookup_eq_none_of_not_mem_keys ranks n hn_not_ranks]
      simp [List.lookup]
    have hrank_lift : ∀ m, m ∈ ranks.map Prod.fst →
        lookupRank (ranks ++ ((n, nodeRank r.edges ranks n) :: ext)) m =
          lookupRank ranks m := by
      intro m hm
      rw [lookupRank, lookupRank,
        lookup_append_left_of_isSome ranks _ m (lookup_isSome_of_mem_keys ranks m hm)]
    have hrank_n : nodeRank r.edges ranks n =
        nodeRank r.edges (ranks ++ ((n, nodeRank r.edges ranks n) :: ext)) n := by
      rw [nodeRank, nodeRank]
      congr 1
      exact foldl_max_congr (lookupRank ranks)
        (lookupRank (ranks ++ ((n, nodeRank r.edges ranks n) :: ext)))
        (inEdges r.edges n) 0
        (fun e he => by
          have he_es : e ∈ r.edges := List.mem_of_mem_filter he
          have hto : e.to_b = n := of_decide_eq_true (List.mem_filter.mp he).2
          exact (hrank_lift e.from_b (hhead e he_es hto)).symm)
    refine ⟨{ name := n, temp := (getBeakerD r.beakers n).temp,
              size := (getBeakerD r.beakers n).size,
              rank := nodeRank r.edges ranks n,
              edges := (outEdges r.edges n).map
                (fun e => (e.to_b, e.transform)) } :: ds,
           (n, nodeRank r.edges ranks n) :: ext, ?_, ?_, ?_, ?_, ?_⟩
    · rw [hstep, h1, List.append_assoc]
      rfl
    · rw [hstep, h2, List.append_assoc]
      rfl
    · simpa using h3
    · simpa using h4
    · intro d hd
      rcases List.mem_cons.mp hd with heq | hds
      · subst heq
        exact ⟨rfl, rfl, rfl, hlook_n, hrank_n⟩
      · have h5d := h5 d hds
        refine ⟨h5d.1, h5d.2.1, h5d.2.2.1, ?_, ?_⟩
        · rw [← hlist]
          exact h5d.2.2.2.1
        · rw [← hlist]
          exact h5d.2.2.2.2

theorem nodeLe_trans {α : Type} (a b c : NodeDesc α) (hab : nodeLe a b = true)
    (hbc : nodeLe b c = true) : nodeLe a c = true := by
  simp only [nodeLe, pyStrLe, Bool.or_eq_true, Bool.and_eq_true,
    decide_eq_true_eq, beq_iff_eq] at hab hbc ⊢
  rcases hab with h1 | ⟨h1, h1s⟩ <;> rcases hbc with h2 | ⟨h2, h2s⟩
  · exact Or.inl (Nat.lt_trans h1 h2)
  · exact Or.inl (h2 ▸ h1)
  · exact Or.inl (h1 ▸ h2)
  · exact Or.inr ⟨h1.trans h2, le_trans h1s h2s⟩

theorem nodeLe_total {α : Type} (a b : NodeDesc α) :
    (nodeLe a b || nodeLe b a) = true := by
  simp only [nodeLe, pyStrLe, Bool.or_eq_true, Bool.and_eq_true,
    decide_eq_true_eq, beq_iff_eq]
  rcases Nat.lt_trichotomy a.rank b.rank with h | h | h
  · exact Or.inl (Or.inl h)
  · rcases le_total a.name.data b.name.data with hs | hs
    · exact Or.inl (Or.inr ⟨h, hs⟩)
    · exact Or.inr (Or.inr ⟨h.symm, hs⟩)
  · exact Or.inr (Or.inl h)

theorem find?_name_unique {α : Type} (gd : List (NodeDesc α)) (d : NodeDesc α)
    (hnodup : (gd.map NodeDesc.name).Nodup) (hd : d ∈ gd) :
    gd.find? (fun x => x.name = d.name) = some d := by
  induction gd with
  | nil => cases hd
  | cons x rest ih =>
    rcases List.mem_cons.mp hd with heq | hrest
    · subst heq
      simp [List.find?]
    · have hx : ¬(x.name = d.name) := by
        intro hcontra
        have hmem : d.name ∈ rest.map NodeDesc.name :=
          List.mem_map.mpr ⟨d, hrest, rfl⟩
        rw [← hcontra] at hmem
        rw [List.map_cons] at hnodup
        exact (List.nodup_cons.mp hnodup).1 hmem
      rw [List.find?_cons, decide_eq_false hx]
      rw [List.map_cons] at hnodup
      exact ih (List.nodup_cons.mp hnodup).2 hrest

/-- The rank assigned to a node by a graph_data output, read off the returned
descriptor list. -/
def rankOfName {α : Type} (gd : List (NodeDesc α)) (n : String) : Nat :=
  ((gd.find? fun x => x.name = n).map NodeDesc.rank).getD 0

/-- The diamond recipe of the rank example, declared in the order used by the
repository test `test_graph_data_multiple_rank`. -/
def diamondR : RState String :=
  (((((((((Recipe.init "diamond").add_beaker "nouns" (some "Word")).add_beaker
    "verbs" (some "Word")).add_beaker "normalized" (some "Word")).add_beaker
    "english" (some "Word")).add_beaker "spanish" (some "Word")).add_transform
    "nouns" "normalized" (fun v => .ok (some v)) "<lambda>" none []).add_transform
    "verbs" "normalized" (fun v => .ok (some v)) "<lambda>" none []).add_transform
    "normalized" "english" (fun v => .ok (some v)) "<lambda>" none []).add_transform
    "normalized" "spanish" (fun v => .ok (some v)) "<lambda>" none []

/-- The same diamond, declared in a different insertion order. -/
def diamondR2 : RState String :=
  (((((((((Recipe.init "diamond").add_beaker "spanish" (some "Word")).add_beaker
    "english" (some "Word")).add_beaker "normalized" (some "Word")).add_beaker
    "verbs" (some "Word")).add_beaker "nouns" (some "Word")).add_transform
    "normalized" "spanish" (fun v => .ok (some v)) "<lambda>" none []).add_transform
    "normalized" "english" (fun v => .ok (some v)) "<lambda>" none []).add_transform
    "verbs" "normalized" (fun v => .ok (some v)) "<lambda>" none []).add_transform
    "nouns" "normalized" (fun v => .ok (some v)) "<lambda>" none []

/-- C7: on an acyclic recipe graph (the topological traversal covers every
node) whose edges start at declared nodes, graph_data returns one descriptor
per node (a permutation of the node set), sorted by (rank ascending, name
ascending), and assigns each node a rank equal to 1 plus the maximum rank of
its predecessors, the maximum being 0 for a node with no predecessors — the
ranks being read back from the returned descriptors themselves; on the diamond
graph nouns→normalized, verbs→normalized, normalized→english,
normalized→spanish the sorted output carries ranks 1, 1, 2, 3, 3, and
declaring the same diamond in a different insertion order yields the same
(name, rank, temp, len) sequence. -/
theorem graph_data_ranks {α : Type} :
    (∀ (r : RState α),
      r.nodes.Nodup →
      (topoSort r.nodes (edgePairs r.edges)).length = r.nodes.length →
      (∀ e ∈ r.edges, e.from_b ∈ r.nodes) →
      ((r.graph_data).map NodeDesc.name).Perm r.nodes
      ∧ List.Pairwise (fun a b => nodeLe a b = true) r.graph_data
      ∧ ∀ d ∈ r.graph_data,
          d.rank = ((inEdges r.edges d.name).foldl
            (fun m e => Nat.max m (rankOfName r.graph_data e.from_b)) 0) + 1)
    ∧ ((diamondR.graph_data).map (fun d => (d.name, d.rank)) =
        [("nouns", 1), ("verbs", 1), ("normalized", 2),
         ("english", 3), ("spanish", 3)])
    ∧ ((diamondR2.graph_data).map (fun d => (d.name, d.rank, d.temp, d.size)) =
        (diamondR.graph_data).map (fun d => (d.name, d.rank, d.temp, d.size))) := by
  refine ⟨?_, by decide, by decide⟩
  intro r hnodup hlen hwf
  have htopoOk : TopoOk r.edges
      (([] : List (String × Nat)).map Prod.fst)
      (topoSort r.nodes (edgePairs r.edges)) :=
    topoGo_topoOk r.edges r.nodes.length r.nodes []
      (fun e he => Or.inr (hwf e he))
  have hordsub : ∀ n ∈ topoSort r.nodes (edgePairs r.edges), n ∈ r.nodes :=
    topoGo_subset _ _ _
  have hordnodup : (topoSort r.nodes (edgePairs r.edges)).Nodup :=
    topoGo_nodup _ _ _ hnodup
  have hperm_order : (topoSort r.nodes (edgePairs r.edges)).Perm r.nodes :=
    List.Subperm.perm_of_length_le
      (List.subperm_of_subset hordnodup hordsub) (le_of_eq hlen.symm)
  obtain ⟨ds, ext, h1, h2, h3, h4, h5⟩ :=
    gdGo_correct r (topoSort r.nodes (edgePairs r.edges)) [] []
      htopoOk (by simpa using hordnodup)
  have hgd : r.graph_data =
      ds.insertionSort (fun a b => nodeLe a b = true) := by
    show (((gdGo r (topoSort r.nodes (edgePairs r.edges)) [] []).1).insertionSort
      fun a b => nodeLe a b = true) = _
    rw [h1, List.nil_append]
  have hperm_gd : (r.graph_data).Perm ds := by
    rw [hgd]
    exact List.perm_insertionSort _ ds
  have hperm_ds_nodes : (ds.map NodeDesc.name).Perm r.nodes := by
    rw [h4]
    exact hperm_order
  have hnames_gd : ((r.graph_data).map NodeDesc.name).Perm r.nodes :=
    (hperm_gd.map NodeDesc.name).trans hperm_ds_nodes
  refine ⟨hnames_gd, ?_, ?_⟩
  · rw [hgd]
    haveI : IsTrans (NodeDesc α) (fun a b => nodeLe a b = true) :=
      ⟨nodeLe_trans⟩
    haveI : IsTotal (NodeDesc α) (fun a b => nodeLe a b = true) :=
      ⟨fun a b => (Bool.or_eq_true _ _).mp (nodeLe_total a b)⟩
    exact List.sorted_insertionSort _ ds
  · intro d hd
    have hd_ds : d ∈ ds := hperm_gd.mem_iff.mp hd
    have hrank : d.rank = nodeRank r.edges ([] ++ ext) d.name :=
      (h5 d hd_ds).2.2.2.2
    rw [hrank, nodeRank]
    congr 1
    apply foldl_max_congr
    intro e he
    have he_es : e ∈ r.edges := List.mem_of_mem_filter he
    have hfrom_nodes : e.from_b ∈ r.nodes := hwf e he_es
    have hfrom_ds : e.from_b ∈ ds.map NodeDesc.name :=
      hperm_ds_nodes.mem_iff.mpr hfrom_nodes
    obtain ⟨du, hdu_ds, hdu_name⟩ := List.mem_map.mp hfrom_ds
    have hlook : ([] ++ ext).lookup du.name = some du.rank :=
      (h5 du hdu_ds).2.2.2.1
    have hnodup_names : ((r.graph_data).map NodeDesc.name).Nodup :=
      (List.Perm.nodup_iff hnames_gd).mpr hnodup
    have hfind : (r.graph_data).find? (fun x => x.name = du.name) = some du :=
      find?_name_unique _ du hnodup_names (hperm_gd.mem_iff.mpr hdu_ds)
    rw [← hdu_name, lookupRank, hlook, rankOfName, hfind]
    rfl

theorem graph_data_ranks_witness :
    ((diamondR.graph_data).map NodeDesc.name).Perm diamondR.nodes
    ∧ List.Pairwise (fun a b => nodeLe a b = true) diamondR.graph_data
    ∧ ∀ d ∈ diamondR.graph_data,
        d.rank = ((inEdges diamondR.edges d.name).foldl
          (fun m e => Nat.max m (rankOfName diamondR.graph_data e.from_b)) 0) + 1 :=
  (graph_data_ranks (α := String)).1 diamondR (by decide) (by decide) (by decide)

end Databeakers
